import Mathlib

/-!
Verification development for the futures-contract roll ledger
(`src/roll_ledger.py`).

Embedding conventions:
* Python `str` is modelled as `List Char` (a Python string is a sequence of
  code points); the abbreviation `Str` is used throughout.
* Python `float` is modelled as `ℚ` (exact arithmetic; the source performs
  only field operations on its floats).
* Python `int` is modelled as `Int`.
* Python `None` / optional values are modelled with `Option`.
* A Python function that can raise is modelled with `Except String`; the
  string carries the exception message.
* Mutation of the ledger object is modelled by explicit state passing: each
  mutating method returns the (possibly updated) ledger next to its result,
  so that a raised exception still reports the state the object was left in.
-/

attribute [local semireducible] Rat.mul Rat.add Rat.sub Rat.inv

/-- Decidable equality for `Except`, so that concrete runs of the fallible
operations can be checked by `decide`. -/
instance {ε α : Type} [DecidableEq ε] [DecidableEq α] : DecidableEq (Except ε α) := by
  intro x y
  cases x <;> cases y
  case error.error a b =>
    exact if h : a = b then isTrue (by rw [h]) else isFalse (by intro hc; cases hc; exact h rfl)
  case ok.ok a b =>
    exact if h : a = b then isTrue (by rw [h]) else isFalse (by intro hc; cases hc; exact h rfl)
  case error.ok a b => exact isFalse (by intro hc; cases hc)
  case ok.error a b => exact isFalse (by intro hc; cases hc)

abbrev Str := List Char

/-- The literal `"LONG"` that `roll_ledger.py` compares directions against. -/
def strLONG : Str := ['L', 'O', 'N', 'G']

/-- `RollEntry` dataclass from `roll_ledger.py`: one contract period. -/
structure RollEntry where
  roll_number : Int
  contract_symbol : Str
  entry_date : Str
  entry_price : ℚ
  exit_date : Option Str
  exit_price : Option ℚ
  quantity : Int
  direction : Str
  notes : Str
deriving DecidableEq

namespace RollEntry

/-- `RollEntry.is_active`: `self.exit_price is None`. -/
def is_active (r : RollEntry) : Bool := r.exit_price.isNone

/-- `RollEntry.realized_pnl_per_contract`. -/
def realized_pnl_per_contract (r : RollEntry) : Option ℚ :=
  match r.exit_price with
  | none => none
  | some xp =>
    if r.direction = strLONG then some (xp - r.entry_price)
    else some (r.entry_price - xp)

/-- `RollEntry.realized_pnl(multiplier)`. -/
def realized_pnl (r : RollEntry) (multiplier : ℚ) : Option ℚ :=
  match r.realized_pnl_per_contract with
  | none => none
  | some per => some (per * multiplier * (r.quantity : ℚ))

/-- `RollEntry.unrealized_pnl_per_contract(current_price)`. -/
def unrealized_pnl_per_contract (r : RollEntry) (current_price : ℚ) : Option ℚ :=
  if !r.is_active then none
  else if r.direction = strLONG then some (current_price - r.entry_price)
  else some (r.entry_price - current_price)

/-- `RollEntry.unrealized_pnl(current_price, multiplier)`. -/
def unrealized_pnl (r : RollEntry) (current_price multiplier : ℚ) : Option ℚ :=
  match r.unrealized_pnl_per_contract current_price with
  | none => none
  | some per => some (per * multiplier * (r.quantity : ℚ))

end RollEntry

/-- `RollLedger` dataclass from `roll_ledger.py`. -/
structure RollLedger where
  instrument : Str
  contract_multiplier : ℚ
  rolls : List RollEntry
deriving DecidableEq

namespace RollLedger

/-- `RollLedger.active_roll`: scan `reversed(self.rolls)` for the first
active entry. -/
def active_roll (L : RollLedger) : Option RollEntry :=
  L.rolls.reverse.find? (fun r => r.is_active)

/-- `RollLedger.closed_rolls`. -/
def closed_rolls (L : RollLedger) : List RollEntry :=
  L.rolls.filter (fun r => !r.is_active)

/-- `RollLedger.total_realized_pnl`: running-total loop over `closed_rolls`,
adding `realized_pnl(multiplier)` whenever it is not `None`. -/
def total_realized_pnl (L : RollLedger) : ℚ :=
  L.closed_rolls.foldl
    (fun total r =>
      match r.realized_pnl L.contract_multiplier with
      | some pnl => total + pnl
      | none => total)
    0

/-- `RollLedger.breakeven_price`.  The source guards `active is None` and
`active.quantity == 0` but performs the float division unguarded; a zero
denominator therefore raises `ZeroDivisionError` in Python, modelled by
the `Except.error` branch. -/
def breakeven_price (L : RollLedger) : Except String (Option ℚ) :=
  match L.active_roll with
  | none => .ok none
  | some active =>
    if active.quantity = 0 then .ok none
    else if L.contract_multiplier * (active.quantity : ℚ) = 0 then
      .error "ZeroDivisionError: float division by zero"
    else
      let adjustment :=
        L.total_realized_pnl / (L.contract_multiplier * (active.quantity : ℚ))
      if active.direction = strLONG then .ok (some (active.entry_price - adjustment))
      else .ok (some (active.entry_price + adjustment))

/-- `RollLedger.true_pnl(current_price)`. -/
def true_pnl (L : RollLedger) (current_price : ℚ) : Option ℚ :=
  match L.active_roll with
  | none => none
  | some active =>
    match active.unrealized_pnl current_price L.contract_multiplier with
    | none => none
    | some unrealized => some (unrealized + L.total_realized_pnl)

/-- `RollLedger.add_initial_entry(...)`: raises if the ledger already has
entries, else appends roll number 1. -/
def add_initial_entry (L : RollLedger) (contract_symbol entry_date : Str)
    (entry_price : ℚ) (quantity : Int) (direction : Str) (notes : Str) :
    Except String RollEntry × RollLedger :=
  if L.rolls ≠ [] then
    (.error "Ledger already has entries. Use roll_contract() to add rolls.", L)
  else
    let entry : RollEntry :=
      ⟨1, contract_symbol, entry_date, entry_price, none, none, quantity, direction, notes⟩
    (.ok entry, { L with rolls := L.rolls ++ [entry] })

/-- Helper modelling the in-place mutation `active.exit_price = ...;
active.exit_date = ...`: sets the exit fields on the first active entry of
the given list (the ledger applies it to `rolls.reverse`, matching the
reversed scan of `active_roll`). -/
def closeFirstActive : List RollEntry → ℚ → Str → List RollEntry
  | [], _, _ => []
  | r :: rs, xp, xd =>
    if r.is_active then { r with exit_price := some xp, exit_date := some xd } :: rs
    else r :: closeFirstActive rs xp xd

/-- Python's `a or b` on an optional string: `b` when `a` is `None` or the
empty string, else the string held by `a`. -/
def pyStrOr (a : Option Str) (b : Str) : Str :=
  match a with
  | some s => if s = [] then b else s
  | none => b

/-- `RollLedger.roll_contract(...)`. -/
def roll_contract (L : RollLedger) (exit_price : ℚ) (exit_date : Str)
    (new_contract_symbol : Str) (new_entry_price : ℚ)
    (new_entry_date : Option Str) (new_quantity : Option Int) (notes : Str) :
    Except String RollEntry × RollLedger :=
  match L.active_roll with
  | none => (.error "No active contract to roll from.", L)
  | some active =>
    let closed := (closeFirstActive L.rolls.reverse exit_price exit_date).reverse
    let new_entry : RollEntry :=
      ⟨active.roll_number + 1, new_contract_symbol, pyStrOr new_entry_date exit_date,
        new_entry_price, none, none,
        (match new_quantity with | some q => q | none => active.quantity),
        active.direction, notes⟩
    (.ok new_entry, { L with rolls := closed ++ [new_entry] })

/-- `RollLedger.close_position(exit_price, exit_date)`. -/
def close_position (L : RollLedger) (exit_price : ℚ) (exit_date : Str) :
    Except String Unit × RollLedger :=
  match L.active_roll with
  | none => (.error "No active contract to close.", L)
  | some _ =>
    (.ok (), { L with rolls := (closeFirstActive L.rolls.reverse exit_price exit_date).reverse })

end RollLedger

/-- One element of the list returned by `cumulative_pnl_series` (the Python
dict with keys `roll_number`, `contract`, `date`, `cum_pnl`, `event`);
`date` is optional because the source stores `r.exit_date` there, which is
an optional field. -/
structure SeriesPoint where
  roll_number : Int
  contract : Str
  date : Option Str
  cum_pnl : ℚ
  event : String
deriving DecidableEq

/-- Python's `pnl if pnl else 0.0` on an optional float: `0.0` when `pnl`
is `None` or `0.0`, else the value. -/
def pyFloatOrZero : Option ℚ → ℚ
  | some v => if v = 0 then 0 else v
  | none => 0

/-- Loop body of `RollLedger.cumulative_pnl_series`, carrying the running
`cum` accumulator. -/
def cumSeriesGo (M : ℚ) : List RollEntry → ℚ → List SeriesPoint
  | [], _ => []
  | r :: rs, cum =>
    let entryPoint : SeriesPoint :=
      ⟨r.roll_number, r.contract_symbol, some r.entry_date, cum, "entry"⟩
    if r.is_active then entryPoint :: cumSeriesGo M rs cum
    else
      let cum2 := cum + pyFloatOrZero (r.realized_pnl M)
      entryPoint :: ⟨r.roll_number, r.contract_symbol, r.exit_date, cum2, "exit/roll"⟩ ::
        cumSeriesGo M rs cum2

/-- `RollLedger.cumulative_pnl_series()`. -/
def RollLedger.cumulative_pnl_series (L : RollLedger) : List SeriesPoint :=
  cumSeriesGo L.contract_multiplier L.rolls 0

/-- Ledger states reachable through the public mutating interface: a freshly
constructed ledger followed by any sequence of `add_initial_entry`,
`roll_contract` and `close_position` calls (failed calls included; by
construction they hand back a ledger as well). -/
inductive Reachable : RollLedger → Prop
  | start (instrument : Str) (contract_multiplier : ℚ) :
      Reachable ⟨instrument, contract_multiplier, []⟩
  | add_initial (L : RollLedger) (cs ed : Str) (ep : ℚ) (q : Int) (dir ns : Str)
      (res : Except String RollEntry) (L' : RollLedger) :
      Reachable L → L.add_initial_entry cs ed ep q dir ns = (res, L') → Reachable L'
  | roll (L : RollLedger) (xp : ℚ) (xd ncs : Str) (np : ℚ)
      (nd : Option Str) (nq : Option Int) (ns : Str)
      (res : Except String RollEntry) (L' : RollLedger) :
      Reachable L → L.roll_contract xp xd ncs np nd nq ns = (res, L') → Reachable L'
  | close (L : RollLedger) (xp : ℚ) (xd : Str)
      (res : Except String Unit) (L' : RollLedger) :
      Reachable L → L.close_position xp xd = (res, L') → Reachable L'

/-- Ledgers obtained from one successful `add_initial_entry` on a fresh
ledger followed by exactly `n` successful `roll_contract` calls. -/
inductive RolledN : ℕ → RollLedger → Prop
  | init (instr : Str) (M : ℚ) (cs ed : Str) (ep : ℚ) (q : Int) (dir ns : Str)
      (e : RollEntry) (L' : RollLedger) :
      RollLedger.add_initial_entry ⟨instr, M, []⟩ cs ed ep q dir ns = (.ok e, L') →
      RolledN 0 L'
  | roll (n : ℕ) (L : RollLedger) (xp : ℚ) (xd ncs : Str) (np : ℚ)
      (nd : Option Str) (nq : Option Int) (ns : Str)
      (e : RollEntry) (L' : RollLedger) :
      RolledN n L → L.roll_contract xp xd ncs np nd nq ns = (.ok e, L') →
      RolledN (n + 1) L'

/-- The literal `"SHORT"` used by callers (e.g. the SHORT CL scenario). -/
def strSHORT : Str := "SHORT".toList

/-! ### Concrete sample ledgers (the §8 scenarios of the spec) -/

/-- First step of the SHORT CL scenario: `add_initial_entry` on a fresh CL
ledger with multiplier 1000, entry 75.0, direction SHORT. -/
def clStep0 : Except String RollEntry × RollLedger :=
  RollLedger.add_initial_entry ⟨"CL".toList, 1000, []⟩ "CLH25".toList
    "2025-01-10".toList 75 1 strSHORT []

/-- SHORT CL scenario ledger after `roll_contract(72.0, "2025-02-14", "CLJ25", 72.5)`. -/
def clShortLedger : RollLedger :=
  (clStep0.2.roll_contract 72 "2025-02-14".toList "CLJ25".toList (145 / 2)
    none none []).2

/-- The active period of `clShortLedger`. -/
def clEntry2 : RollEntry :=
  ⟨2, "CLJ25".toList, "2025-02-14".toList, 145 / 2, none, none, 1, strSHORT, []⟩

/-- First step of the LONG ES scenario: multiplier 50, entry 5000. -/
def esStep0 : Except String RollEntry × RollLedger :=
  RollLedger.add_initial_entry ⟨"ES".toList, 50, []⟩ "ESH25".toList
    "2025-01-15".toList 5000 1 strLONG []

/-- LONG ES scenario ledger after `roll_contract(5050.0, "2025-03-14", "ESM25", 5060.0)`. -/
def esLedger : RollLedger :=
  (esStep0.2.roll_contract 5050 "2025-03-14".toList "ESM25".toList 5060
    none none []).2

/-- The active period of `esLedger`. -/
def esEntry2 : RollEntry :=
  ⟨2, "ESM25".toList, "2025-03-14".toList, 5060, none, none, 1, strLONG, []⟩

theorem clShortLedger_reachable : Reachable clShortLedger :=
  Reachable.roll clStep0.2 72 "2025-02-14".toList "CLJ25".toList (145 / 2)
    none none [] _ _
    (Reachable.add_initial ⟨"CL".toList, 1000, []⟩ "CLH25".toList
      "2025-01-10".toList 75 1 strSHORT [] clStep0.1 clStep0.2
      (Reachable.start "CL".toList 1000) rfl) rfl

theorem esLedger_reachable : Reachable esLedger :=
  Reachable.roll esStep0.2 5050 "2025-03-14".toList "ESM25".toList 5060
    none none [] _ _
    (Reachable.add_initial ⟨"ES".toList, 50, []⟩ "ESH25".toList
      "2025-01-15".toList 5000 1 strLONG [] esStep0.1 esStep0.2
      (Reachable.start "ES".toList 50) rfl) rfl

/-! ### C1: breakeven formula and direction law -/

theorem breakeven_price_formula (L : RollLedger) (a : RollEntry)
    (ha : L.active_roll = some a) (hq : a.quantity ≠ 0)
    (hd : L.contract_multiplier * (a.quantity : ℚ) ≠ 0) :
    L.breakeven_price = .ok (some (
      if a.direction = strLONG then
        a.entry_price - L.total_realized_pnl / (L.contract_multiplier * (a.quantity : ℚ))
      else
        a.entry_price + L.total_realized_pnl / (L.contract_multiplier * (a.quantity : ℚ)))) := by
  unfold RollLedger.breakeven_price
  rw [ha]
  simp only [hq, if_false, hd, ite_false]
  split <;> rfl

/-- C1: with an active period of nonzero quantity (and hence a nonzero
division denominator), `breakeven_price` equals entry − adjustment for LONG
and entry + adjustment otherwise, where adjustment =
total_realized_pnl / (multiplier · quantity); consequently any reachable
ledger with positive multiplier, positive active quantity and strictly
positive total realized P&L has a LONG breakeven strictly below the active
entry price and a SHORT breakeven strictly above it; and in the §8 SHORT CL
scenario the breakeven is 75.5 (= 151/2), not 69.5 (= 139/2). -/
theorem c1_breakeven_formula_and_direction_law :
    (∀ (L : RollLedger) (a : RollEntry), L.active_roll = some a → a.quantity ≠ 0 →
      L.contract_multiplier * (a.quantity : ℚ) ≠ 0 →
      L.breakeven_price = .ok (some (
        if a.direction = strLONG then
          a.entry_price - L.total_realized_pnl / (L.contract_multiplier * (a.quantity : ℚ))
        else
          a.entry_price + L.total_realized_pnl / (L.contract_multiplier * (a.quantity : ℚ))))) ∧
    (∀ (L : RollLedger) (a : RollEntry), Reachable L → L.active_roll = some a →
      0 < L.contract_multiplier → 0 < a.quantity → 0 < L.total_realized_pnl →
      ∃ b, L.breakeven_price = .ok (some b) ∧
        (a.direction = strLONG → b < a.entry_price) ∧
        (a.direction = strSHORT → a.entry_price < b)) ∧
    (clShortLedger.breakeven_price = .ok (some (151 / 2)) ∧
      clShortLedger.breakeven_price ≠ .ok (some (139 / 2))) := by
  refine ⟨breakeven_price_formula, ?_, by decide, by decide⟩
  intro L a _ ha hM hq hR
  have hq0 : a.quantity ≠ 0 := ne_of_gt hq
  have hMq : (0 : ℚ) < L.contract_multiplier * (a.quantity : ℚ) := by
    apply mul_pos hM
    exact_mod_cast hq
  have hadj : 0 < L.total_realized_pnl / (L.contract_multiplier * (a.quantity : ℚ)) :=
    div_pos hR hMq
  refine ⟨_, breakeven_price_formula L a ha hq0 (ne_of_gt hMq), ?_, ?_⟩
  · intro hdir
    rw [if_pos hdir]
    exact sub_lt_self _ hadj
  · intro hdir
    rw [if_neg (by rw [hdir]; decide)]
    exact lt_add_of_pos_right _ hadj

theorem c1_witness :
    ∃ b, clShortLedger.breakeven_price = .ok (some b) ∧
      (clEntry2.direction = strLONG → b < clEntry2.entry_price) ∧
      (clEntry2.direction = strSHORT → clEntry2.entry_price < b) :=
  c1_breakeven_formula_and_direction_law.2.1 clShortLedger clEntry2
    clShortLedger_reachable (by decide) (by decide) (by decide) (by decide)

/-! ### C3: guards of `breakeven_price` -/

/-- A ledger constructed with contract multiplier 0 and one active period of
quantity 1. -/
def zeroMultLedger : RollLedger :=
  (RollLedger.add_initial_entry ⟨"CL".toList, 0, []⟩ "CLH25".toList
    "2025-01-10".toList 75 1 strLONG []).2

/-- C3 counterexample: on a ledger with contract multiplier 0 and an active
period of quantity 1, `breakeven_price` raises `ZeroDivisionError` instead of
returning the absent value, so the zero-multiplier guard condition claimed is
not implemented. -/
theorem c3_counterexample :
    zeroMultLedger.breakeven_price =
      .error "ZeroDivisionError: float division by zero" := by decide

/-- C3 (amended): `breakeven_price` returns the absent value when there is no
active period or the active quantity is 0; but a zero contract multiplier with
nonzero active quantity is not guarded and raises `ZeroDivisionError`. -/
theorem c3_breakeven_guards :
    (∀ L : RollLedger, L.active_roll = none → L.breakeven_price = .ok none) ∧
    (∀ (L : RollLedger) (a : RollEntry), L.active_roll = some a → a.quantity = 0 →
      L.breakeven_price = .ok none) ∧
    (∀ (L : RollLedger) (a : RollEntry), L.active_roll = some a → a.quantity ≠ 0 →
      L.contract_multiplier = 0 →
      L.breakeven_price = .error "ZeroDivisionError: float division by zero") := by
  refine ⟨?_, ?_, ?_⟩
  · intro L h
    unfold RollLedger.breakeven_price
    rw [h]
  · intro L a ha hq
    unfold RollLedger.breakeven_price
    rw [ha]
    simp [hq]
  · intro L a ha hq hM
    unfold RollLedger.breakeven_price
    rw [ha]
    simp [hq, hM]

theorem c3_witness :
    (RollLedger.mk "ES".toList 50 []).breakeven_price = .ok none ∧
    (RollLedger.mk [] 50 [⟨1, [], [], 75, none, none, 0, strLONG, []⟩]).breakeven_price
      = .ok none ∧
    zeroMultLedger.breakeven_price = .error "ZeroDivisionError: float division by zero" :=
  ⟨c3_breakeven_guards.1 _ rfl,
   c3_breakeven_guards.2.1 _ ⟨1, [], [], 75, none, none, 0, strLONG, []⟩ rfl rfl,
   c3_breakeven_guards.2.2 zeroMultLedger ⟨1, "CLH25".toList, "2025-01-10".toList,
      75, none, none, 1, strLONG, []⟩ (by decide) (by decide) rfl⟩

/-! ### C4: precondition violations are rejected and leave the state unchanged -/

/-- C4: calling `add_initial_entry` on a non-empty ledger, or `roll_contract`
or `close_position` with no active period, returns the descriptive error of
the source and hands back the ledger state exactly unchanged. -/
theorem c4_precondition_violations :
    (∀ (L : RollLedger) (cs ed : Str) (ep : ℚ) (q : Int) (dir ns : Str),
      L.rolls ≠ [] → L.add_initial_entry cs ed ep q dir ns =
        (.error "Ledger already has entries. Use roll_contract() to add rolls.", L)) ∧
    (∀ (L : RollLedger) (xp : ℚ) (xd ncs : Str) (np : ℚ) (nd : Option Str)
      (nq : Option Int) (ns : Str),
      L.active_roll = none → L.roll_contract xp xd ncs np nd nq ns =
        (.error "No active contract to roll from.", L)) ∧
    (∀ (L : RollLedger) (xp : ℚ) (xd : Str), L.active_roll = none →
      L.close_position xp xd = (.error "No active contract to close.", L)) := by
  refine ⟨?_, ?_, ?_⟩
  · intro L cs ed ep q dir ns h
    unfold RollLedger.add_initial_entry
    simp [h]
  · intro L xp xd ncs np nd nq ns h
    unfold RollLedger.roll_contract
    rw [h]
  · intro L xp xd h
    unfold RollLedger.close_position
    rw [h]

theorem c4_witness :
    esLedger.add_initial_entry "ESU25".toList "2025-06-13".toList 5100 1 strLONG [] =
      (.error "Ledger already has entries. Use roll_contract() to add rolls.", esLedger) ∧
    (RollLedger.mk "ES".toList 50 []).roll_contract 5000 "2025-01-15".toList
      "ESM25".toList 5010 none none [] =
      (.error "No active contract to roll from.", RollLedger.mk "ES".toList 50 []) ∧
    (RollLedger.mk "ES".toList 50 []).close_position 5000 "2025-01-15".toList =
      (.error "No active contract to close.", RollLedger.mk "ES".toList 50 []) :=
  ⟨c4_precondition_violations.1 esLedger _ _ _ _ _ _ (by decide),
   c4_precondition_violations.2.1 _ _ _ _ _ _ _ _ rfl,
   c4_precondition_violations.2.2 _ _ _ rfl⟩

/-! ### C6: true P&L decomposition -/

theorem foldl_realized_eq_add_sum (M : ℚ) (l : List RollEntry) (c : ℚ) :
    l.foldl
      (fun total r =>
        match r.realized_pnl M with
        | some pnl => total + pnl
        | none => total) c
      = c + (l.map (fun r => (r.realized_pnl M).getD 0)).sum := by
  induction l generalizing c with
  | nil => simp
  | cons r rs ih =>
    simp only [List.foldl_cons, List.map_cons, List.sum_cons]
    cases h : r.realized_pnl M with
    | none => rw [ih]; simp [h]
    | some v => rw [ih]; simp [h]; ring

/-- C6: on any reachable ledger with an active period, `true_pnl(p)` is the
active period's `unrealized_pnl(p, multiplier)` plus `total_realized_pnl`;
with no active period it is the absent value; and `total_realized_pnl` is the
sum of the multiplier- and quantity-scaled realized P&L over the closed
periods (0 for an empty sum). -/
theorem c6_true_pnl_decomposition :
    (∀ (L : RollLedger) (p : ℚ) (a : RollEntry) (u : ℚ), Reachable L →
      L.active_roll = some a → a.unrealized_pnl p L.contract_multiplier = some u →
      L.true_pnl p = some (u + L.total_realized_pnl)) ∧
    (∀ (L : RollLedger) (p : ℚ), L.active_roll = none → L.true_pnl p = none) ∧
    (∀ L : RollLedger, L.total_realized_pnl =
      (L.closed_rolls.map (fun r => (r.realized_pnl L.contract_multiplier).getD 0)).sum) := by
  refine ⟨?_, ?_, ?_⟩
  · intro L p a u _ ha hu
    simp [RollLedger.true_pnl, ha, hu]
  · intro L p h
    unfold RollLedger.true_pnl
    rw [h]
  · intro L
    unfold RollLedger.total_realized_pnl
    rw [foldl_realized_eq_add_sum]
    rw [zero_add]

theorem c6_witness :
    esLedger.true_pnl 5100 = some (2000 + esLedger.total_realized_pnl) ∧
    (RollLedger.mk "ES".toList 50 []).true_pnl 5100 = none :=
  ⟨c6_true_pnl_decomposition.1 esLedger 5100 esEntry2 2000
      (Reachable.roll esStep0.2 5050 "2025-03-14".toList "ESM25".toList 5060
        none none [] _ _
        (Reachable.add_initial ⟨"ES".toList, 50, []⟩ "ESH25".toList
          "2025-01-15".toList 5000 1 strLONG [] esStep0.1 esStep0.2
          (Reachable.start "ES".toList 50) rfl) rfl)
      (by decide) (by decide),
   c6_true_pnl_decomposition.2.1 _ 5100 rfl⟩

/-! ### C9: direction is compared only against the exact string "LONG" -/

/-- C9: every direction test in the source is an equality test against the
exact string `"LONG"`; a period with any other direction string is computed
as SHORT by `realized_pnl_per_contract`, `unrealized_pnl_per_contract` and
`breakeven_price`, and `add_initial_entry` (the only operation receiving a
direction argument) stores the argument verbatim without validation or
normalization. -/
theorem c9_direction_exact_LONG_comparison :
    (∀ (r : RollEntry) (xp : ℚ), r.exit_price = some xp → r.direction ≠ strLONG →
      r.realized_pnl_per_contract = some (r.entry_price - xp)) ∧
    (∀ (r : RollEntry) (p : ℚ), r.is_active = true → r.direction ≠ strLONG →
      r.unrealized_pnl_per_contract p = some (r.entry_price - p)) ∧
    (∀ (L : RollLedger) (a : RollEntry), L.active_roll = some a →
      a.direction ≠ strLONG → a.quantity ≠ 0 →
      L.contract_multiplier * (a.quantity : ℚ) ≠ 0 →
      L.breakeven_price = .ok (some (a.entry_price +
        L.total_realized_pnl / (L.contract_multiplier * (a.quantity : ℚ))))) ∧
    (∀ (L : RollLedger) (cs ed : Str) (ep : ℚ) (q : Int) (dir ns : Str)
      (e : RollEntry) (L' : RollLedger),
      L.add_initial_entry cs ed ep q dir ns = (.ok e, L') → e.direction = dir) := by
  refine ⟨?_, ?_, ?_, ?_⟩
  · intro r xp hx hd
    unfold RollEntry.realized_pnl_per_contract
    rw [hx]
    simp [hd]
  · intro r p hact hd
    unfold RollEntry.unrealized_pnl_per_contract
    rw [hact]
    simp [hd]
  · intro L a ha hd hq hden
    rw [breakeven_price_formula L a ha hq hden, if_neg hd]
  · intro L cs ed ep q dir ns e L' heq
    unfold RollLedger.add_initial_entry at heq
    split at heq
    · exact absurd (congrArg Prod.fst heq) (by simp)
    · have h1 : Except.ok (ε := String)
          (⟨1, cs, ed, ep, none, none, q, dir, ns⟩ : RollEntry) = .ok e :=
        congrArg Prod.fst heq
      have h2 : (⟨1, cs, ed, ep, none, none, q, dir, ns⟩ : RollEntry) = e := by
        cases h1; rfl
      rw [← h2]

theorem c9_witness :
    (RollEntry.mk 1 "CLH25".toList "2025-01-15".toList 75 (some "2025-02-14".toList)
        (some 70) 2 "long".toList []).realized_pnl_per_contract = some (75 - 70) ∧
    (RollEntry.mk 1 "CLH25".toList "2025-01-15".toList 75 none none 2
        "Long".toList []).unrealized_pnl_per_contract 73 = some (75 - 73) ∧
    clShortLedger.breakeven_price = .ok (some (clEntry2.entry_price +
      clShortLedger.total_realized_pnl /
        (clShortLedger.contract_multiplier * (clEntry2.quantity : ℚ)))) ∧
    (⟨1, "CLH25".toList, "2025-01-10".toList, 75, none, none, 1, "short".toList, []⟩
        : RollEntry).direction = "short".toList :=
  ⟨c9_direction_exact_LONG_comparison.1 _ 70 rfl (by decide),
   c9_direction_exact_LONG_comparison.2.1 _ 73 rfl (by decide),
   c9_direction_exact_LONG_comparison.2.2.1 clShortLedger clEntry2 (by decide)
     (by decide) (by decide) (by decide),
   c9_direction_exact_LONG_comparison.2.2.2 ⟨"CL".toList, 1000, []⟩ "CLH25".toList
     "2025-01-10".toList 75 1 "short".toList [] _ _ rfl⟩

/-! ### C10: `new_entry_date or exit_date` resolves by truthiness -/

/-- C10: `roll_contract` fills the new period's entry date with
`new_entry_date or exit_date`: an omitted (`None`) argument *and* an empty
string both yield the exit date; only a non-empty string is used as given. -/
theorem c10_new_entry_date_truthiness :
    (∀ (L : RollLedger) (xp : ℚ) (xd ncs : Str) (np : ℚ) (nq : Option Int)
      (ns : Str) (e : RollEntry) (L' : RollLedger),
      L.roll_contract xp xd ncs np (some []) nq ns = (.ok e, L') →
      e.entry_date = xd) ∧
    (∀ (L : RollLedger) (xp : ℚ) (xd ncs : Str) (np : ℚ) (nq : Option Int)
      (ns : Str) (e : RollEntry) (L' : RollLedger),
      L.roll_contract xp xd ncs np none nq ns = (.ok e, L') →
      e.entry_date = xd) ∧
    (∀ (L : RollLedger) (xp : ℚ) (xd ncs : Str) (np : ℚ) (s : Str)
      (nq : Option Int) (ns : Str) (e : RollEntry) (L' : RollLedger), s ≠ [] →
      L.roll_contract xp xd ncs np (some s) nq ns = (.ok e, L') →
      e.entry_date = s) := by
  refine ⟨?_, ?_, ?_⟩
  · intro L xp xd ncs np nq ns e L' heq
    unfold RollLedger.roll_contract at heq
    cases ha : L.active_roll with
    | none => rw [ha] at heq; exact absurd (congrArg Prod.fst heq) (by simp)
    | some a =>
      rw [ha] at heq
      have h1 := congrArg Prod.fst heq
      simp only [Except.ok.injEq] at h1
      rw [← h1]
      simp [RollLedger.pyStrOr]
  · intro L xp xd ncs np nq ns e L' heq
    unfold RollLedger.roll_contract at heq
    cases ha : L.active_roll with
    | none => rw [ha] at heq; exact absurd (congrArg Prod.fst heq) (by simp)
    | some a =>
      rw [ha] at heq
      have h1 := congrArg Prod.fst heq
      simp only [Except.ok.injEq] at h1
      rw [← h1]
      simp [RollLedger.pyStrOr]
  · intro L xp xd ncs np s nq ns e L' hs heq
    unfold RollLedger.roll_contract at heq
    cases ha : L.active_roll with
    | none => rw [ha] at heq; exact absurd (congrArg Prod.fst heq) (by simp)
    | some a =>
      rw [ha] at heq
      have h1 := congrArg Prod.fst heq
      simp only [Except.ok.injEq] at h1
      rw [← h1]
      simp [RollLedger.pyStrOr, hs]

theorem c10_witness :
    (RollEntry.mk 2 "ESM25".toList "2025-03-14".toList 5060 none none 1 strLONG
      []).entry_date = "2025-03-14".toList :=
  c10_new_entry_date_truthiness.1 esStep0.2 5050 "2025-03-14".toList
    "ESM25".toList 5060 none []
    ⟨2, "ESM25".toList, "2025-03-14".toList, 5060, none, none, 1, strLONG, []⟩
    (esStep0.2.roll_contract 5050 "2025-03-14".toList "ESM25".toList 5060
      (some []) none []).2 (by decide)

/-! ### C5: structural invariants of reachable ledgers -/

theorem find?_inactive_none {l : List RollEntry}
    (h : ∀ r ∈ l, r.is_active = false) :
    l.find? (fun r => r.is_active) = none := by
  rw [List.find?_eq_none]
  intro x hx
  simp [h x hx]

theorem active_roll_last {L : RollLedger} {l : List RollEntry} {a : RollEntry}
    (hr : L.rolls = l ++ [a]) (hl : ∀ r ∈ l, r.is_active = false) :
    L.active_roll = if a.is_active then some a else none := by
  unfold RollLedger.active_roll
  rw [hr, List.reverse_append]
  simp only [List.reverse_singleton, List.singleton_append]
  cases hact : a.is_active with
  | true =>
    rw [List.find?_cons_of_pos _ (by simpa using hact)]
    simp
  | false =>
    rw [List.find?_cons_of_neg _ (by simp [hact]),
      if_neg (by simp : ¬false = true)]
    exact find?_inactive_none fun r hr' => hl r (List.mem_reverse.mp hr')

theorem rolls_decomp {L : RollLedger} {a : RollEntry}
    (hinv : ∀ r ∈ L.rolls.dropLast, r.is_active = false)
    (ha : L.active_roll = some a) :
    ∃ l, L.rolls = l ++ [a] ∧ (∀ r ∈ l, r.is_active = false) ∧
      a.is_active = true := by
  have hne : L.rolls ≠ [] := by
    intro h
    unfold RollLedger.active_roll at ha
    rw [h] at ha
    simp [List.find?] at ha
  have hsplit : L.rolls.dropLast ++ [L.rolls.getLast hne] = L.rolls :=
    List.dropLast_append_getLast hne
  have hlast := active_roll_last hsplit.symm hinv
  rw [ha] at hlast
  cases hact : (L.rolls.getLast hne).is_active with
  | false => rw [hact] at hlast; simp at hlast
  | true =>
    rw [hact] at hlast
    simp only [if_true, Option.some.injEq] at hlast
    refine ⟨L.rolls.dropLast, ?_, hinv, ?_⟩
    · rw [hlast]; exact hsplit.symm
    · rw [hlast]; exact hact

/-- Periods carrying consecutive roll numbers starting at `k`. -/
def numberedFrom : Int → List RollEntry → Prop
  | _, [] => True
  | k, r :: rs => r.roll_number = k ∧ numberedFrom (k + 1) rs

theorem numberedFrom_cons (k : Int) (r : RollEntry) (rs : List RollEntry) :
    numberedFrom k (r :: rs) ↔ r.roll_number = k ∧ numberedFrom (k + 1) rs :=
  Iff.rfl

theorem numberedFrom_append (k : Int) (xs : List RollEntry) (y : RollEntry) :
    numberedFrom k (xs ++ [y]) ↔
      numberedFrom k xs ∧ y.roll_number = k + (xs.length : Int) := by
  induction xs generalizing k with
  | nil =>
    simp only [List.nil_append, numberedFrom_cons, numberedFrom,
      List.length_nil, Int.natCast_zero, add_zero]
    constructor
    · rintro ⟨h1, -⟩; exact ⟨trivial, h1⟩
    · rintro ⟨-, h1⟩; exact ⟨h1, trivial⟩
  | cons r rs ih =>
    rw [List.cons_append, numberedFrom_cons, numberedFrom_cons, ih,
      List.length_cons]
    constructor
    · rintro ⟨h1, h2, h3⟩
      refine ⟨⟨h1, h2⟩, ?_⟩
      omega
    · rintro ⟨⟨h1, h2⟩, h3⟩
      refine ⟨h1, h2, ?_⟩
      omega

theorem numberedFrom_get {k : Int} {rs : List RollEntry} (hn : numberedFrom k rs) :
    ∀ (i : ℕ) (h : i < rs.length), (rs.get ⟨i, h⟩).roll_number = k + i := by
  induction rs generalizing k with
  | nil => intro i h; simp at h
  | cons r t ih =>
    obtain ⟨h1, h2⟩ := (numberedFrom_cons k r t).mp hn
    intro i h
    cases i with
    | zero => simpa using h1
    | succ j =>
      have := ih h2 j (Nat.lt_of_succ_lt_succ h)
      simp only [List.get_cons_succ, this]
      omega

theorem numberedFrom_map (k : Int) (rs : List RollEntry) (hn : numberedFrom k rs) :
    rs.map (fun r => r.roll_number) =
      (List.range rs.length).map (fun i : ℕ => k + (i : Int)) := by
  induction rs generalizing k with
  | nil => simp
  | cons r t ih =>
    obtain ⟨h1, h2⟩ := (numberedFrom_cons k r t).mp hn
    rw [List.map_cons, h1, List.length_cons, List.range_succ_eq_map,
      List.map_cons, List.map_map]
    congr 1
    · simp
    · rw [ih (k + 1) h2]
      apply List.map_congr_left
      intro i _
      simp only [Function.comp_apply]
      push_cast
      ring

theorem reachable_invariant {L : RollLedger} (h : Reachable L) :
    (∀ r ∈ L.rolls.dropLast, r.is_active = false) ∧ numberedFrom 1 L.rolls := by
  induction h with
  | start instr M => exact ⟨by simp, trivial⟩
  | add_initial L cs ed ep q dir ns res L' _ heq ih =>
    unfold RollLedger.add_initial_entry at heq
    split at heq
    · injection heq with h1 h2
      exact h2 ▸ ih
    · next hne =>
      have hr0 : L.rolls = [] := not_not.mp hne
      injection heq with h1 h2
      rw [← h2]
      dsimp only
      rw [hr0]
      exact ⟨by simp, ⟨rfl, trivial⟩⟩
  | roll L xp xd ncs np nd nq ns res L' _ heq ih =>
    unfold RollLedger.roll_contract at heq
    cases ha : L.active_roll with
    | none =>
      rw [ha] at heq
      injection heq with h1 h2
      exact h2 ▸ ih
    | some a =>
      rw [ha] at heq
      injection heq with h1 h2
      obtain ⟨l, hl, hlin, hact⟩ := rolls_decomp ih.1 ha
      have hclose : (RollLedger.closeFirstActive L.rolls.reverse xp xd).reverse
          = l ++ [{ a with exit_price := some xp, exit_date := some xd }] := by
        rw [hl, List.reverse_append]
        simp only [List.reverse_singleton, List.singleton_append]
        unfold RollLedger.closeFirstActive
        rw [if_pos hact]
        simp
      rw [← h2]
      dsimp only
      rw [hclose]
      have hnum : numberedFrom 1 (l ++ [a]) := hl ▸ ih.2
      rw [numberedFrom_append] at hnum
      constructor
      · intro r hr
        rw [List.dropLast_concat] at hr
        rcases List.mem_append.mp hr with h' | h'
        · exact hlin r h'
        · rcases List.mem_singleton.mp h' with rfl
          rfl
      · rw [numberedFrom_append, numberedFrom_append]
        refine ⟨⟨hnum.1, hnum.2⟩, ?_⟩
        simp only [List.length_append, List.length_singleton]
        have := hnum.2
        omega
  | close L xp xd res L' _ heq ih =>
    unfold RollLedger.close_position at heq
    cases ha : L.active_roll with
    | none =>
      rw [ha] at heq
      injection heq with h1 h2
      exact h2 ▸ ih
    | some a =>
      rw [ha] at heq
      injection heq with h1 h2
      obtain ⟨l, hl, hlin, hact⟩ := rolls_decomp ih.1 ha
      have hclose : (RollLedger.closeFirstActive L.rolls.reverse xp xd).reverse
          = l ++ [{ a with exit_price := some xp, exit_date := some xd }] := by
        rw [hl, List.reverse_append]
        simp only [List.reverse_singleton, List.singleton_append]
        unfold RollLedger.closeFirstActive
        rw [if_pos hact]
        simp
      rw [← h2]
      dsimp only
      rw [hclose]
      have hnum : numberedFrom 1 (l ++ [a]) := hl ▸ ih.2
      rw [numberedFrom_append] at hnum
      constructor
      · intro r hr
        rw [List.dropLast_concat] at hr
        exact hlin r hr
      · rw [numberedFrom_append]
        exact ⟨hnum.1, hnum.2⟩

theorem closeFirstActive_length (xs : List RollEntry) (xp : ℚ) (xd : Str) :
    (RollLedger.closeFirstActive xs xp xd).length = xs.length := by
  induction xs with
  | nil => rfl
  | cons r rs ih =>
    unfold RollLedger.closeFirstActive
    split <;> simp [ih]

theorem closed_rolls_eq_dropLast {L : RollLedger} {a : RollEntry}
    (hR : Reachable L) (ha : L.active_roll = some a) :
    L.closed_rolls = L.rolls.dropLast := by
  obtain ⟨l, hl, hlin, hact⟩ := rolls_decomp (reachable_invariant hR).1 ha
  unfold RollLedger.closed_rolls
  rw [hl, List.filter_append, List.dropLast_concat]
  have h1 : l.filter (fun r => !r.is_active) = l := by
    rw [List.filter_eq_self]
    intro r hr
    simp [hlin r hr]
  have h2 : [a].filter (fun r => !r.is_active) = [] := by
    simp [List.filter, hact]
  rw [h1, h2, List.append_nil]

theorem rolledN_reachable {n : ℕ} {L : RollLedger} (h : RolledN n L) :
    Reachable L := by
  induction h with
  | init instr M cs ed ep q dir ns e L' heq =>
    exact Reachable.add_initial _ cs ed ep q dir ns (.ok e) L'
      (Reachable.start instr M) heq
  | roll n L xp xd ncs np nd nq ns e L' _ heq ih =>
    exact Reachable.roll L xp xd ncs np nd nq ns (.ok e) L' ih heq

theorem rolledN_length_active {n : ℕ} {L : RollLedger} (h : RolledN n L) :
    L.rolls.length = n + 1 ∧ ∃ a, L.active_roll = some a := by
  induction h with
  | init instr M cs ed ep q dir ns e L' heq =>
    unfold RollLedger.add_initial_entry at heq
    rw [if_neg (by simp)] at heq
    injection heq with h1 h2
    rw [← h2]
    exact ⟨rfl, _, rfl⟩
  | roll n L xp xd ncs np nd nq ns e L' _ heq ih =>
    unfold RollLedger.roll_contract at heq
    cases ha : L.active_roll with
    | none =>
      rw [ha] at heq
      exact absurd (congrArg Prod.fst heq) (by simp)
    | some a =>
      rw [ha] at heq
      injection heq with h1 h2
      rw [← h2]
      dsimp only
      constructor
      · simp only [List.length_append, List.length_reverse,
          closeFirstActive_length, List.length_singleton]
        rw [ih.1]
      · refine ⟨⟨a.roll_number + 1, ncs, RollLedger.pyStrOr nd xd, np, none, none,
          (match nq with | some q => q | none => a.quantity), a.direction, ns⟩, ?_⟩
        unfold RollLedger.active_roll
        dsimp only
        rw [List.reverse_append]
        simp only [List.reverse_singleton, List.singleton_append]
        rw [List.find?_cons_of_pos _ (by rfl)]
        cases nq <;> rfl

/-- C5: on every reachable ledger, all periods before the last are closed (so
at most one period is active, and an active one is the last element), and
each period's roll number is its array position + 1; a ledger built from one
initial entry and `n` successful rolls has exactly `n + 1` periods with roll
numbers `1..n+1` in order, `n` of them closed; and a period opened by
`roll_contract` copies the direction of the active period it closed. -/
theorem c5_invariants_and_roll_counting :
    (∀ L : RollLedger, Reachable L →
      (∀ r ∈ L.rolls.dropLast, r.is_active = false) ∧
      L.rolls.countP (fun r => r.is_active) ≤ 1 ∧
      (∀ a : RollEntry, L.active_roll = some a → L.rolls.getLast? = some a) ∧
      (∀ (i : ℕ) (h : i < L.rolls.length),
        (L.rolls.get ⟨i, h⟩).roll_number = (i : Int) + 1)) ∧
    (∀ (n : ℕ) (L : RollLedger), RolledN n L →
      L.rolls.length = n + 1 ∧ L.closed_rolls.length = n ∧
      L.rolls.map (fun r => r.roll_number) =
        (List.range (n + 1)).map (fun i : ℕ => (i : Int) + 1)) ∧
    (∀ (L : RollLedger) (xp : ℚ) (xd ncs : Str) (np : ℚ) (nd : Option Str)
      (nq : Option Int) (ns : Str) (a e : RollEntry) (L' : RollLedger),
      L.active_roll = some a →
      L.roll_contract xp xd ncs np nd nq ns = (.ok e, L') →
      e.direction = a.direction) := by
  refine ⟨?_, ?_, ?_⟩
  · intro L hR
    have hinv := reachable_invariant hR
    refine ⟨hinv.1, ?_, ?_, ?_⟩
    · rcases List.eq_nil_or_concat L.rolls with h | ⟨l, y, h⟩
      · simp [h]
      · rw [List.concat_eq_append] at h
        rw [h, List.countP_append]
        have h0 : l.countP (fun r => r.is_active) = 0 := by
          rw [List.countP_eq_zero]
          intro r hr
          have := hinv.1 r (by rw [h, List.dropLast_concat]; exact hr)
          simp [this]
        have h1 : [y].countP (fun r => r.is_active) ≤ 1 := by
          simp only [List.countP_cons, List.countP_nil]
          split <;> omega
        omega
    · intro a ha
      obtain ⟨l, hl, -, -⟩ := rolls_decomp hinv.1 ha
      rw [hl, List.getLast?_concat]
    · intro i h
      have := numberedFrom_get hinv.2 i h
      omega
  · intro n L h
    have hR := rolledN_reachable h
    obtain ⟨hlen, a, ha⟩ := rolledN_length_active h
    refine ⟨hlen, ?_, ?_⟩
    · rw [closed_rolls_eq_dropLast hR ha, List.length_dropLast, hlen]
      omega
    · rw [numberedFrom_map 1 L.rolls (reachable_invariant hR).2, hlen]
      apply List.map_congr_left
      intro i _
      omega
  · intro L xp xd ncs np nd nq ns a e L' ha heq
    unfold RollLedger.roll_contract at heq
    rw [ha] at heq
    have h1 := congrArg Prod.fst heq
    simp only [Except.ok.injEq] at h1
    rw [← h1]

theorem c5_witness :
    esLedger.rolls.getLast? = some esEntry2 ∧
    (clShortLedger.rolls.length = 1 + 1 ∧ clShortLedger.closed_rolls.length = 1 ∧
      clShortLedger.rolls.map (fun r => r.roll_number) =
        (List.range (1 + 1)).map (fun i : ℕ => (i : Int) + 1)) ∧
    esEntry2.direction = (RollEntry.mk 1 "ESH25".toList "2025-01-15".toList 5000
      none none 1 strLONG []).direction :=
  ⟨(c5_invariants_and_roll_counting.1 esLedger esLedger_reachable).2.2.1 esEntry2
      (by decide),
   c5_invariants_and_roll_counting.2.1 1 clShortLedger
     (RolledN.roll 0 clStep0.2 72 "2025-02-14".toList "CLJ25".toList (145 / 2)
       none none [] clEntry2 clShortLedger
       (RolledN.init "CL".toList 1000 "CLH25".toList "2025-01-10".toList 75 1
         strSHORT []
         ⟨1, "CLH25".toList, "2025-01-10".toList, 75, none, none, 1, strSHORT, []⟩
         clStep0.2 (by decide)) (by decide)),
   c5_invariants_and_roll_counting.2.2 esStep0.2 5050 "2025-03-14".toList
     "ESM25".toList 5060 none none []
     (RollEntry.mk 1 "ESH25".toList "2025-01-15".toList 5000 none none 1 strLONG [])
     esEntry2 esLedger (by decide) (by decide)⟩

/-! ### C8: cumulative P&L series -/

/-- Spec-side notion: the multiplier-scaled realized P&L accumulated over a
list of periods (closed periods contribute their realized P&L, active ones
contribute nothing). -/
def accumRealized (M : ℚ) (rs : List RollEntry) : ℚ :=
  (rs.map (fun r => if r.is_active then 0 else (r.realized_pnl M).getD 0)).sum

/-- Transcription of the spec's description of the chart series, for
comparison with the implementation: walking the periods in sequence order
with `processed` the periods strictly before the current one, each period
contributes one `entry` event whose cumulative value is the realized P&L
accumulated strictly before it opened, and each closed period additionally
contributes one `exit/roll` event whose cumulative value is the realized
P&L accumulated through and including it. -/
def seriesSpecGo (M : ℚ) (processed : List RollEntry) :
    List RollEntry → List SeriesPoint
  | [] => []
  | r :: rs =>
    ⟨r.roll_number, r.contract_symbol, some r.entry_date,
      accumRealized M processed, "entry"⟩ ::
    (if r.is_active then seriesSpecGo M (processed ++ [r]) rs
     else ⟨r.roll_number, r.contract_symbol, r.exit_date,
        accumRealized M (processed ++ [r]), "exit/roll"⟩ ::
       seriesSpecGo M (processed ++ [r]) rs)

/-- The spec-side series of a ledger. -/
def seriesSpec (L : RollLedger) : List SeriesPoint :=
  seriesSpecGo L.contract_multiplier [] L.rolls

theorem accumRealized_append (M : ℚ) (xs : List RollEntry) (r : RollEntry) :
    accumRealized M (xs ++ [r]) = accumRealized M xs +
      (if r.is_active then 0 else (r.realized_pnl M).getD 0) := by
  unfold accumRealized
  rw [List.map_append, List.sum_append]
  simp

theorem pyFloatOrZero_eq_getD (o : Option ℚ) : pyFloatOrZero o = o.getD 0 := by
  cases o with
  | none => rfl
  | some v => by_cases h : v = 0 <;> simp [pyFloatOrZero, h]

theorem cumSeriesGo_eq_seriesSpecGo (M : ℚ) (rs : List RollEntry) :
    ∀ processed, cumSeriesGo M rs (accumRealized M processed)
      = seriesSpecGo M processed rs := by
  induction rs with
  | nil => intro processed; rfl
  | cons r t ih =>
    intro processed
    simp only [cumSeriesGo, seriesSpecGo]
    cases hact : r.is_active with
    | true =>
      simp only [hact, if_true]
      have hacc : accumRealized M (processed ++ [r]) = accumRealized M processed := by
        rw [accumRealized_append, hact]
        simp
      congr 1
      rw [← hacc]
      exact ih (processed ++ [r])
    | false =>
      simp only [hact, Bool.false_eq_true, if_false]
      have hacc : accumRealized M processed + pyFloatOrZero (r.realized_pnl M)
          = accumRealized M (processed ++ [r]) := by
        rw [accumRealized_append, hact, pyFloatOrZero_eq_getD]
        simp
      rw [hacc, ih (processed ++ [r])]

theorem cumSeriesGo_entry_count (M : ℚ) (rs : List RollEntry) :
    ∀ c, ((cumSeriesGo M rs c).filter (fun pt => pt.event = "entry")).length
      = rs.length := by
  induction rs with
  | nil => intro c; rfl
  | cons r t ih =>
    intro c
    simp only [cumSeriesGo]
    cases hact : r.is_active with
    | true =>
      simp only [hact, if_true, List.filter_cons]
      simp [ih]
    | false =>
      simp only [hact, Bool.false_eq_true, if_false, List.filter_cons]
      simp [ih, (by decide : ¬("exit/roll" : String) = "entry")]

theorem cumSeriesGo_exit_count (M : ℚ) (rs : List RollEntry) :
    ∀ c, ((cumSeriesGo M rs c).filter (fun pt => pt.event = "exit/roll")).length
      = (rs.filter (fun r => !r.is_active)).length := by
  induction rs with
  | nil => intro c; rfl
  | cons r t ih =>
    intro c
    simp only [cumSeriesGo]
    cases hact : r.is_active with
    | true =>
      simp only [hact, if_true, List.filter_cons]
      simp [ih, hact, (by decide : ¬("entry" : String) = "exit/roll")]
    | false =>
      simp only [hact, Bool.false_eq_true, if_false, List.filter_cons]
      simp [ih, hact, (by decide : ¬("entry" : String) = "exit/roll")]

/-- C8: `cumulative_pnl_series` equals, for every ledger, the spec-side
series `seriesSpec`: in period sequence order, one `entry` event per period
whose cumulative value is the realized P&L accumulated strictly before that
period opened (so the running total starts at 0), and one `exit/roll` event
per closed period whose cumulative value is the realized P&L accumulated
through and including that period (so the total changes only at exit/roll
events, by that period's multiplier-scaled realized P&L); in particular
there are exactly as many `entry` events as periods and exactly as many
`exit/roll` events as closed periods. -/
theorem c8_cumulative_pnl_series_spec :
    (∀ L : RollLedger, L.cumulative_pnl_series = seriesSpec L) ∧
    (∀ L : RollLedger,
      ((L.cumulative_pnl_series.filter (fun pt => pt.event = "entry")).length
        = L.rolls.length) ∧
      ((L.cumulative_pnl_series.filter (fun pt => pt.event = "exit/roll")).length
        = L.closed_rolls.length)) := by
  constructor
  · intro L
    unfold RollLedger.cumulative_pnl_series seriesSpec
    have h0 : (0 : ℚ) = accumRealized L.contract_multiplier [] := rfl
    rw [h0, cumSeriesGo_eq_seriesSpecGo]
  · intro L
    exact ⟨cumSeriesGo_entry_count _ _ _, cumSeriesGo_exit_count _ _ _⟩

/-! ### CSV layer, part 1: decimal numeral cells

Python writes numeric cells with `str(...)` and re-reads them with `int(...)`
/`float(...)`; `str`/`int` and `repr`/`float` are exact round-trip pairs.
The model renders `Int` quantities in decimal and rational prices as
`num` or `num/den`, with `charsToInt?`/`charsToRat?` the matching parsers
(failing on non-numeric text exactly where Python's `int`/`float` raise
`ValueError`). -/

/-- The decimal digit characters. -/
def digitChar : ℕ → Char
  | 0 => '0' | 1 => '1' | 2 => '2' | 3 => '3' | 4 => '4'
  | 5 => '5' | 6 => '6' | 7 => '7' | 8 => '8' | _ => '9'

def charToDigit? (c : Char) : Option ℕ :=
  if c = '0' then some 0 else if c = '1' then some 1 else if c = '2' then some 2
  else if c = '3' then some 3 else if c = '4' then some 4 else if c = '5' then some 5
  else if c = '6' then some 6 else if c = '7' then some 7 else if c = '8' then some 8
  else if c = '9' then some 9 else none

theorem charToDigit?_digitChar (d : ℕ) (h : d < 10) :
    charToDigit? (digitChar d) = some d := by
  interval_cases d <;> rfl

theorem charToDigit?_isSome {c : Char} (h : (charToDigit? c).isSome = true) :
    c = '0' ∨ c = '1' ∨ c = '2' ∨ c = '3' ∨ c = '4' ∨ c = '5' ∨ c = '6' ∨
    c = '7' ∨ c = '8' ∨ c = '9' := by
  unfold charToDigit? at h
  split_ifs at h with h0 h1 h2 h3 h4 h5 h6 h7 h8 h9
  · exact Or.inl h0
  · exact Or.inr (Or.inl h1)
  · exact Or.inr (Or.inr (Or.inl h2))
  · exact Or.inr (Or.inr (Or.inr (Or.inl h3)))
  · exact Or.inr (Or.inr (Or.inr (Or.inr (Or.inl h4))))
  · exact Or.inr (Or.inr (Or.inr (Or.inr (Or.inr (Or.inl h5)))))
  · exact Or.inr (Or.inr (Or.inr (Or.inr (Or.inr (Or.inr (Or.inl h6))))))
  · exact Or.inr (Or.inr (Or.inr (Or.inr (Or.inr (Or.inr (Or.inr (Or.inl h7)))))))
  · exact Or.inr (Or.inr (Or.inr (Or.inr (Or.inr (Or.inr (Or.inr (Or.inr (Or.inl h8))))))))
  · exact Or.inr (Or.inr (Or.inr (Or.inr (Or.inr (Or.inr (Or.inr (Or.inr (Or.inr h9))))))))
  · simp at h

theorem digitCharSafe {c : Char} (h : (charToDigit? c).isSome = true) :
    c ≠ '-' ∧ c ≠ '/' ∧ c ≠ ',' ∧ c ≠ '"' ∧ c ≠ '\r' ∧ c ≠ '\n' := by
  rcases charToDigit?_isSome h with h | h | h | h | h | h | h | h | h | h <;>
    subst h <;> exact ⟨by decide, by decide, by decide, by decide, by decide, by decide⟩

/-- Little-endian decimal digits of `n` (fuel-based so that it is structural
recursion; agrees with `Nat.digits 10`). -/
def natDigitsAux : ℕ → ℕ → List ℕ
  | 0, _ => []
  | fuel + 1, n => if n = 0 then [] else n % 10 :: natDigitsAux fuel (n / 10)

def natDigits (n : ℕ) : List ℕ := natDigitsAux n n

theorem natDigitsAux_eq_digits : ∀ (fuel n : ℕ), n ≤ fuel →
    natDigitsAux fuel n = Nat.digits 10 n := by
  intro fuel
  induction fuel with
  | zero =>
    intro n hn
    have : n = 0 := Nat.le_zero.mp hn
    subst this
    simp [natDigitsAux, Nat.digits_zero]
  | succ f ih =>
    intro n hn
    unfold natDigitsAux
    by_cases h : n = 0
    · subst h; simp [Nat.digits_zero]
    · rw [if_neg h]
      rw [Nat.digits_def' (by norm_num : 1 < 10) (Nat.pos_of_ne_zero h)]
      rw [ih (n / 10) (by
        have h1 : n / 10 < n := Nat.div_lt_self (Nat.pos_of_ne_zero h) (by norm_num)
        omega)]

theorem natDigits_eq_digits (n : ℕ) : natDigits n = Nat.digits 10 n :=
  natDigitsAux_eq_digits n n le_rfl

/-- Decimal rendering of a natural number (model of Python `str` on a
nonnegative int). -/
def natToChars (n : ℕ) : List Char :=
  if n = 0 then ['0'] else ((natDigits n).map digitChar).reverse

def digitsOf : List Char → Option (List ℕ)
  | [] => some []
  | c :: cs =>
    match charToDigit? c, digitsOf cs with
    | some d, some ds => some (d :: ds)
    | _, _ => none

/-- Decimal parsing of a natural number (model of Python `int()` on an
unsigned digit string). -/
def charsToNat? (cs : List Char) : Option ℕ :=
  if cs = [] then none
  else
    match digitsOf cs with
    | some ds => some (Nat.ofDigits 10 ds.reverse)
    | none => none

theorem digitsOf_map_digitChar (ds : List ℕ) (h : ∀ d ∈ ds, d < 10) :
    digitsOf (ds.map digitChar) = some ds := by
  induction ds with
  | nil => rfl
  | cons d t ih =>
    simp only [List.map_cons, digitsOf]
    rw [charToDigit?_digitChar d (h d (by simp)),
      ih (fun x hx => h x (by simp [hx]))]

theorem charsToNat?_natToChars (n : ℕ) : charsToNat? (natToChars n) = some n := by
  unfold natToChars
  by_cases h : n = 0
  · subst h; rfl
  · rw [if_neg h]
    unfold charsToNat?
    rw [natDigits_eq_digits]
    have hne : ((Nat.digits 10 n).map digitChar).reverse ≠ [] := by
      simp [Nat.digits_ne_nil_iff_ne_zero, h]
    rw [if_neg hne]
    have hdig : digitsOf ((Nat.digits 10 n).map digitChar).reverse
        = some (Nat.digits 10 n).reverse := by
      rw [← List.map_reverse]
      exact digitsOf_map_digitChar _
        (fun d hd => Nat.digits_lt_base (by norm_num) (List.mem_reverse.mp hd))
    rw [hdig]
    simp [Nat.ofDigits_digits]

theorem natToChars_ne_nil (n : ℕ) : natToChars n ≠ [] := by
  unfold natToChars
  by_cases h : n = 0
  · simp [h]
  · rw [if_neg h, natDigits_eq_digits]
    simp [Nat.digits_ne_nil_iff_ne_zero, h]

theorem natToChars_digit (n : ℕ) : ∀ c ∈ natToChars n,
    (charToDigit? c).isSome = true := by
  intro c hc
  unfold natToChars at hc
  by_cases h : n = 0
  · rw [if_pos h] at hc
    rw [List.mem_singleton.mp hc]
    rfl
  · rw [if_neg h, natDigits_eq_digits] at hc
    rw [List.mem_reverse] at hc
    obtain ⟨d, hd, rfl⟩ := List.mem_map.mp hc
    rw [charToDigit?_digitChar d (Nat.digits_lt_base (by norm_num) hd)]
    rfl

/-- Decimal rendering of an integer (model of Python `str` on an int). -/
def intToChars (i : Int) : List Char :=
  if i < 0 then '-' :: natToChars i.natAbs else natToChars i.natAbs

/-- Model of Python `int()` on a decimal string: an optional leading minus
sign followed by digits. -/
def charsToInt? (cs : List Char) : Option Int :=
  if cs = [] then none
  else if cs.headD ' ' = '-' then (charsToNat? cs.tail).map (fun n => -Int.ofNat n)
  else (charsToNat? cs).map (fun n => Int.ofNat n)

theorem charsToInt?_intToChars (i : Int) : charsToInt? (intToChars i) = some i := by
  unfold intToChars
  by_cases h : i < 0
  · rw [if_pos h]
    unfold charsToInt?
    rw [if_neg (by simp)]
    simp only [List.headD_cons, List.tail_cons]
    rw [if_pos trivial, charsToNat?_natToChars]
    simp only [Option.map_some', Option.some.injEq, Int.ofNat_eq_natCast]
    omega
  · rw [if_neg h]
    obtain ⟨c, rest, hcr⟩ := List.exists_cons_of_ne_nil (natToChars_ne_nil i.natAbs)
    unfold charsToInt?
    have hd : (charToDigit? c).isSome = true :=
      natToChars_digit _ c (by rw [hcr]; simp)
    rw [if_neg (natToChars_ne_nil i.natAbs),
      if_neg (by rw [hcr]; simpa using (digitCharSafe hd).1),
      charsToNat?_natToChars]
    simp only [Option.map_some', Option.some.injEq, Int.ofNat_eq_natCast]
    omega

theorem intToChars_ne_nil (i : Int) : intToChars i ≠ [] := by
  unfold intToChars
  by_cases h : i < 0
  · simp [h]
  · simp [h, natToChars_ne_nil]

theorem intToChars_no_slash (i : Int) : ∀ c ∈ intToChars i, c ≠ '/' := by
  intro c hc
  unfold intToChars at hc
  by_cases h : i < 0
  · rw [if_pos h] at hc
    rcases List.mem_cons.mp hc with rfl | hc'
    · decide
    · exact (digitCharSafe (natToChars_digit _ c hc')).2.1
  · rw [if_neg h] at hc
    exact (digitCharSafe (natToChars_digit _ c hc)).2.1

/-- Split a character list at the first occurrence of `sep`. -/
def splitFirst (sep : Char) : List Char → List Char × Option (List Char)
  | [] => ([], none)
  | c :: cs =>
    if c = sep then ([], some cs)
    else
      let p := splitFirst sep cs
      (c :: p.1, p.2)

theorem splitFirst_no_sep (sep : Char) (l : List Char) (h : ∀ c ∈ l, c ≠ sep) :
    splitFirst sep l = (l, none) := by
  induction l with
  | nil => rfl
  | cons c cs ih =>
    unfold splitFirst
    rw [if_neg (h c (by simp))]
    rw [ih (fun x hx => h x (by simp [hx]))]

theorem splitFirst_append_sep (sep : Char) (l r : List Char)
    (h : ∀ c ∈ l, c ≠ sep) :
    splitFirst sep (l ++ sep :: r) = (l, some r) := by
  induction l with
  | nil => simp [splitFirst]
  | cons c cs ih =>
    simp only [List.cons_append]
    unfold splitFirst
    rw [if_neg (h c (by simp))]
    rw [ih (fun x hx => h x (by simp [hx]))]

/-- Rendering of a rational price cell: `num` when the denominator is 1,
else `num/den` (the model's stand-in for Python's exact `repr(float)`). -/
def ratToChars (q : ℚ) : List Char :=
  intToChars q.num ++ (if q.den = 1 then [] else '/' :: natToChars q.den)

/-- Model of Python `float()` on the textual number cells, paired with
`ratToChars`. -/
def charsToRat? (cs : List Char) : Option ℚ :=
  match (splitFirst '/' cs).2 with
  | none => (charsToInt? (splitFirst '/' cs).1).map (fun i => (i : ℚ))
  | some b =>
    match charsToInt? (splitFirst '/' cs).1, charsToNat? b with
    | some i, some n => if n = 0 then none else some ((i : ℚ) / (n : ℚ))
    | _, _ => none

theorem charsToRat?_ratToChars (q : ℚ) : charsToRat? (ratToChars q) = some q := by
  unfold ratToChars
  by_cases h : q.den = 1
  · rw [if_pos h, List.append_nil]
    unfold charsToRat?
    rw [splitFirst_no_sep _ _ (intToChars_no_slash q.num)]
    simp only [charsToInt?_intToChars, Option.map_some, Option.some.injEq]
    have hq := Rat.num_div_den q
    rw [h] at hq
    simpa using hq
  · rw [if_neg h]
    unfold charsToRat?
    rw [splitFirst_append_sep _ _ _ (intToChars_no_slash q.num)]
    simp only [charsToInt?_intToChars, charsToNat?_natToChars]
    rw [if_neg q.den_nz]
    rw [Rat.num_div_den]

theorem ratToChars_ne_nil (q : ℚ) : ratToChars q ≠ [] := by
  unfold ratToChars
  intro h
  exact intToChars_ne_nil q.num (List.append_eq_nil.mp h).1

/-! ### CSV layer, part 2: the delimited-text format

Model of Python's `csv` module with the default dialect as used by the
source: `csv.writer` quotes a field (QUOTE_MINIMAL) iff it contains the
delimiter `,`, the quote char `"`, or a line-break character, doubling
embedded quotes, joins fields with `,` and terminates each record with
CRLF; `csv.reader` is the matching field scanner (in its default
non-strict mode) operating on the whole text. -/

/-- QUOTE_MINIMAL test of `csv.writer`. -/
def needsQuoting (cs : List Char) : Bool :=
  cs.any (fun c => c = ',' || c = '"' || c = '\r' || c = '\n')

/-- Double each embedded quote character. -/
def escapeQuotes : List Char → List Char
  | [] => []
  | c :: cs =>
    if c = '"' then '"' :: '"' :: escapeQuotes cs else c :: escapeQuotes cs

/-- Quote one field as `csv.writer` does. -/
def quoteField (cs : List Char) : List Char :=
  if needsQuoting cs then '"' :: (escapeQuotes cs ++ ['"']) else cs

/-- Join cells with the `,` delimiter. -/
def joinComma : List (List Char) → List Char
  | [] => []
  | [c] => c
  | c :: cs => c ++ ',' :: joinComma cs

/-- One record as written by `csv.writer.writerow`. -/
def writeRow (cells : List (List Char)) : List Char :=
  joinComma (cells.map quoteField) ++ ['\r', '\n']

/-- States of the csv reader's scanner: at a record boundary, right after a
record-terminating CR (a following LF is part of the same terminator), at a
field boundary inside a record, inside an unquoted field, inside a quoted
field, and right after a quote inside a quoted field. -/
inductive CsvSt
  | startRecord | eatLF | startField | inField | inQuoted | quoteInQuoted
deriving DecidableEq

/-- Character-level model of `csv.reader` over the whole text: `fields` are
the completed fields of the current record and `field` is the field being
scanned.  A quote at field start opens quoting, a doubled quote inside
quoting is a literal quote, and (non-strict mode) any other character after
a closing quote is taken literally. -/
def csvParseGo : CsvSt → List (List Char) → List Char → List Char →
    List (List (List Char))
  | st, fields, field, [] =>
    if st = .startRecord ∨ st = .eatLF then [] else [fields ++ [field]]
  | st, fields, field, c :: cs =>
    match st with
    | .startRecord =>
      if c = '\r' then [] :: csvParseGo .eatLF [] [] cs
      else if c = '\n' then [] :: csvParseGo .startRecord [] [] cs
      else if c = '"' then csvParseGo .inQuoted [] [] cs
      else if c = ',' then csvParseGo .startField [[]] [] cs
      else csvParseGo .inField [] [c] cs
    | .eatLF =>
      if c = '\n' then csvParseGo .startRecord [] [] cs
      else if c = '\r' then [] :: csvParseGo .eatLF [] [] cs
      else if c = '"' then csvParseGo .inQuoted [] [] cs
      else if c = ',' then csvParseGo .startField [[]] [] cs
      else csvParseGo .inField [] [c] cs
    | .startField =>
      if c = '\r' then (fields ++ [[]]) :: csvParseGo .eatLF [] [] cs
      else if c = '\n' then (fields ++ [[]]) :: csvParseGo .startRecord [] [] cs
      else if c = '"' then csvParseGo .inQuoted fields [] cs
      else if c = ',' then csvParseGo .startField (fields ++ [[]]) [] cs
      else csvParseGo .inField fields [c] cs
    | .inField =>
      if c = '\r' then (fields ++ [field]) :: csvParseGo .eatLF [] [] cs
      else if c = '\n' then (fields ++ [field]) :: csvParseGo .startRecord [] [] cs
      else if c = ',' then csvParseGo .startField (fields ++ [field]) [] cs
      else csvParseGo .inField fields (field ++ [c]) cs
    | .inQuoted =>
      if c = '"' then csvParseGo .quoteInQuoted fields field cs
      else csvParseGo .inQuoted fields (field ++ [c]) cs
    | .quoteInQuoted =>
      if c = '"' then csvParseGo .inQuoted fields (field ++ ['"']) cs
      else if c = ',' then csvParseGo .startField (fields ++ [field]) [] cs
      else if c = '\r' then (fields ++ [field]) :: csvParseGo .eatLF [] [] cs
      else if c = '\n' then (fields ++ [field]) :: csvParseGo .startRecord [] [] cs
      else csvParseGo .inField fields (field ++ [c]) cs

/-- Model of `csv.reader` on a whole text. -/
def csvParse (text : List Char) : List (List (List Char)) :=
  csvParseGo .startRecord [] [] text

/-- A character that QUOTE_MINIMAL leaves unquoted. -/
def safeChar (c : Char) : Prop := c ≠ ',' ∧ c ≠ '"' ∧ c ≠ '\r' ∧ c ≠ '\n'

theorem needsQuoting_false {cs : List Char} (h : needsQuoting cs = false) :
    ∀ c ∈ cs, safeChar c := by
  intro c hc
  unfold needsQuoting at h
  rw [List.any_eq_false] at h
  have := h c hc
  unfold safeChar
  constructor
  · intro hx; simp [hx] at this
  constructor
  · intro hx; simp [hx] at this
  constructor
  · intro hx; simp [hx] at this
  · intro hx; simp [hx] at this

/-! Single-transition equations of the scanner. -/

theorem csv_sr_cr (f : List (List Char)) (fl cs : List Char) :
    csvParseGo .startRecord f fl ('\r' :: cs)
      = [] :: csvParseGo .eatLF [] [] cs := by
  conv_lhs => rw [csvParseGo.eq_def]
  dsimp only
  rw [if_pos rfl]

theorem csv_sr_quote (f : List (List Char)) (fl cs : List Char) :
    csvParseGo .startRecord f fl ('"' :: cs)
      = csvParseGo .inQuoted [] [] cs := by
  conv_lhs => rw [csvParseGo.eq_def]
  dsimp only
  rw [if_neg (by decide), if_neg (by decide), if_pos rfl]

theorem csv_sr_comma (f : List (List Char)) (fl cs : List Char) :
    csvParseGo .startRecord f fl (',' :: cs)
      = csvParseGo .startField [[]] [] cs := by
  conv_lhs => rw [csvParseGo.eq_def]
  dsimp only
  rw [if_neg (by decide), if_neg (by decide), if_neg (by decide), if_pos rfl]

theorem csv_sr_safe (f : List (List Char)) (fl cs : List Char) {c : Char}
    (h : safeChar c) :
    csvParseGo .startRecord f fl (c :: cs)
      = csvParseGo .inField [] [c] cs := by
  obtain ⟨h1, h2, h3, h4⟩ := h
  conv_lhs => rw [csvParseGo.eq_def]
  dsimp only
  rw [if_neg h3, if_neg h4, if_neg h2, if_neg h1]

theorem csv_el_lf (f : List (List Char)) (fl cs : List Char) :
    csvParseGo .eatLF f fl ('\n' :: cs)
      = csvParseGo .startRecord [] [] cs := by
  conv_lhs => rw [csvParseGo.eq_def]
  dsimp only
  rw [if_pos rfl]

theorem csv_sf_cr (f : List (List Char)) (fl cs : List Char) :
    csvParseGo .startField f fl ('\r' :: cs)
      = (f ++ [[]]) :: csvParseGo .eatLF [] [] cs := by
  conv_lhs => rw [csvParseGo.eq_def]
  dsimp only
  rw [if_pos rfl]

theorem csv_sf_quote (f : List (List Char)) (fl cs : List Char) :
    csvParseGo .startField f fl ('"' :: cs)
      = csvParseGo .inQuoted f [] cs := by
  conv_lhs => rw [csvParseGo.eq_def]
  dsimp only
  rw [if_neg (by decide), if_neg (by decide), if_pos rfl]

theorem csv_sf_comma (f : List (List Char)) (fl cs : List Char) :
    csvParseGo .startField f fl (',' :: cs)
      = csvParseGo .startField (f ++ [[]]) [] cs := by
  conv_lhs => rw [csvParseGo.eq_def]
  dsimp only
  rw [if_neg (by decide), if_neg (by decide), if_neg (by decide), if_pos rfl]

theorem csv_sf_safe (f : List (List Char)) (fl cs : List Char) {c : Char}
    (h : safeChar c) :
    csvParseGo .startField f fl (c :: cs)
      = csvParseGo .inField f [c] cs := by
  obtain ⟨h1, h2, h3, h4⟩ := h
  conv_lhs => rw [csvParseGo.eq_def]
  dsimp only
  rw [if_neg h3, if_neg h4, if_neg h2, if_neg h1]

theorem csv_if_cr (f : List (List Char)) (fl cs : List Char) :
    csvParseGo .inField f fl ('\r' :: cs)
      = (f ++ [fl]) :: csvParseGo .eatLF [] [] cs := by
  conv_lhs => rw [csvParseGo.eq_def]
  dsimp only
  rw [if_pos rfl]

theorem csv_if_comma (f : List (List Char)) (fl cs : List Char) :
    csvParseGo .inField f fl (',' :: cs)
      = csvParseGo .startField (f ++ [fl]) [] cs := by
  conv_lhs => rw [csvParseGo.eq_def]
  dsimp only
  rw [if_neg (by decide), if_neg (by decide), if_pos rfl]

theorem csv_if_safe (f : List (List Char)) (fl cs : List Char) {c : Char}
    (h : safeChar c) :
    csvParseGo .inField f fl (c :: cs)
      = csvParseGo .inField f (fl ++ [c]) cs := by
  obtain ⟨h1, -, h3, h4⟩ := h
  conv_lhs => rw [csvParseGo.eq_def]
  dsimp only
  rw [if_neg h3, if_neg h4, if_neg h1]

theorem csv_iq_quote (f : List (List Char)) (fl cs : List Char) :
    csvParseGo .inQuoted f fl ('"' :: cs)
      = csvParseGo .quoteInQuoted f fl cs := by
  conv_lhs => rw [csvParseGo.eq_def]
  dsimp only
  rw [if_pos rfl]

theorem csv_iq_other (f : List (List Char)) (fl cs : List Char) {c : Char}
    (h : c ≠ '"') :
    csvParseGo .inQuoted f fl (c :: cs)
      = csvParseGo .inQuoted f (fl ++ [c]) cs := by
  conv_lhs => rw [csvParseGo.eq_def]
  dsimp only
  rw [if_neg h]

theorem csv_qq_quote (f : List (List Char)) (fl cs : List Char) :
    csvParseGo .quoteInQuoted f fl ('"' :: cs)
      = csvParseGo .inQuoted f (fl ++ ['"']) cs := by
  conv_lhs => rw [csvParseGo.eq_def]
  dsimp only
  rw [if_pos rfl]

theorem csv_qq_comma (f : List (List Char)) (fl cs : List Char) :
    csvParseGo .quoteInQuoted f fl (',' :: cs)
      = csvParseGo .startField (f ++ [fl]) [] cs := by
  conv_lhs => rw [csvParseGo.eq_def]
  dsimp only
  rw [if_neg (by decide), if_pos rfl]

theorem csv_qq_cr (f : List (List Char)) (fl cs : List Char) :
    csvParseGo .quoteInQuoted f fl ('\r' :: cs)
      = (f ++ [fl]) :: csvParseGo .eatLF [] [] cs := by
  conv_lhs => rw [csvParseGo.eq_def]
  dsimp only
  rw [if_neg (by decide), if_neg (by decide), if_pos rfl]

/-! Scanning a whole written field, record and text. -/

theorem csv_inField_scan (cell : List Char) (h : ∀ c ∈ cell, safeChar c) :
    ∀ (f : List (List Char)) (fl rest : List Char),
      csvParseGo .inField f fl (cell ++ rest)
        = csvParseGo .inField f (fl ++ cell) rest := by
  induction cell with
  | nil => intro f fl rest; simp
  | cons c t ih =>
    intro f fl rest
    rw [List.cons_append, csv_if_safe f fl _ (h c (by simp)),
      ih (fun x hx => h x (by simp [hx])) f (fl ++ [c]) rest]
    simp

theorem escapeQuotes_cons_quote (t : List Char) :
    escapeQuotes ('"' :: t) = '"' :: '"' :: escapeQuotes t := by
  conv_lhs => rw [escapeQuotes.eq_def]
  dsimp only
  rw [if_pos rfl]

theorem escapeQuotes_cons (c : Char) (t : List Char) (h : c ≠ '"') :
    escapeQuotes (c :: t) = c :: escapeQuotes t := by
  conv_lhs => rw [escapeQuotes.eq_def]
  dsimp only
  rw [if_neg h]

theorem csv_inQuoted_scan (cell : List Char) :
    ∀ (f : List (List Char)) (fl rest : List Char),
      csvParseGo .inQuoted f fl (escapeQuotes cell ++ '"' :: rest)
        = csvParseGo .quoteInQuoted f (fl ++ cell) rest := by
  induction cell with
  | nil =>
    intro f fl rest
    simp [escapeQuotes, csv_iq_quote]
  | cons c t ih =>
    intro f fl rest
    by_cases hc : c = '"'
    · subst hc
      rw [escapeQuotes_cons_quote]
      rw [List.cons_append, List.cons_append, csv_iq_quote, csv_qq_quote, ih]
      simp
    · rw [escapeQuotes_cons c t hc]
      rw [List.cons_append, csv_iq_other f fl _ hc, ih]
      simp

theorem csv_cell_comma (cell : List Char) (f : List (List Char)) (rest : List Char) :
    csvParseGo .startField f [] (quoteField cell ++ ',' :: rest)
      = csvParseGo .startField (f ++ [cell]) [] rest := by
  unfold quoteField
  cases hq : needsQuoting cell with
  | true =>
    rw [if_pos rfl]
    rw [List.cons_append, List.append_assoc, List.singleton_append,
      csv_sf_quote, csv_inQuoted_scan, csv_qq_comma]
    simp
  | false =>
    rw [if_neg (by simp [hq])]
    have hsafe := needsQuoting_false hq
    cases cell with
    | nil => rw [List.nil_append, csv_sf_comma]
    | cons c t =>
      rw [List.cons_append, csv_sf_safe f [] _ (hsafe c (by simp)),
        csv_inField_scan t (fun x hx => hsafe x (by simp [hx])),
        List.singleton_append, csv_if_comma]

theorem csv_cell_cr (cell : List Char) (f : List (List Char)) (rest : List Char) :
    csvParseGo .startField f [] (quoteField cell ++ '\r' :: rest)
      = (f ++ [cell]) :: csvParseGo .eatLF [] [] rest := by
  unfold quoteField
  cases hq : needsQuoting cell with
  | true =>
    rw [if_pos rfl]
    rw [List.cons_append, List.append_assoc, List.singleton_append,
      csv_sf_quote, csv_inQuoted_scan, csv_qq_cr]
    simp
  | false =>
    rw [if_neg (by simp [hq])]
    have hsafe := needsQuoting_false hq
    cases cell with
    | nil => rw [List.nil_append, csv_sf_cr]
    | cons c t =>
      rw [List.cons_append, csv_sf_safe f [] _ (hsafe c (by simp)),
        csv_inField_scan t (fun x hx => hsafe x (by simp [hx])),
        List.singleton_append, csv_if_cr]

theorem csv_cell_comma_start (cell : List Char) (rest : List Char) :
    csvParseGo .startRecord [] [] (quoteField cell ++ ',' :: rest)
      = csvParseGo .startField [cell] [] rest := by
  unfold quoteField
  cases hq : needsQuoting cell with
  | true =>
    rw [if_pos rfl]
    rw [List.cons_append, List.append_assoc, List.singleton_append,
      csv_sr_quote, csv_inQuoted_scan, csv_qq_comma]
    simp
  | false =>
    rw [if_neg (by simp [hq])]
    have hsafe := needsQuoting_false hq
    cases cell with
    | nil => rw [List.nil_append, csv_sr_comma]
    | cons c t =>
      rw [List.cons_append, csv_sr_safe [] [] _ (hsafe c (by simp)),
        csv_inField_scan t (fun x hx => hsafe x (by simp [hx])),
        List.singleton_append, csv_if_comma, List.nil_append]

theorem csv_cell_cr_start (cell : List Char) (hne : cell ≠ []) (rest : List Char) :
    csvParseGo .startRecord [] [] (quoteField cell ++ '\r' :: rest)
      = [cell] :: csvParseGo .eatLF [] [] rest := by
  unfold quoteField
  cases hq : needsQuoting cell with
  | true =>
    rw [if_pos rfl]
    rw [List.cons_append, List.append_assoc, List.singleton_append,
      csv_sr_quote, csv_inQuoted_scan, csv_qq_cr]
    simp
  | false =>
    rw [if_neg (by simp [hq])]
    have hsafe := needsQuoting_false hq
    cases cell with
    | nil => exact absurd rfl hne
    | cons c t =>
      rw [List.cons_append, csv_sr_safe [] [] _ (hsafe c (by simp)),
        csv_inField_scan t (fun x hx => hsafe x (by simp [hx])),
        List.singleton_append, csv_if_cr, List.nil_append]

theorem csv_fields_loop (cells : List (List Char)) (hne : cells ≠ []) :
    ∀ (f : List (List Char)) (rest : List Char),
      csvParseGo .startField f [] (joinComma (cells.map quoteField) ++ '\r' :: rest)
        = (f ++ cells) :: csvParseGo .eatLF [] [] rest := by
  induction cells with
  | nil => exact absurd rfl hne
  | cons c t ih =>
    intro f rest
    cases t with
    | nil =>
      rw [show joinComma ([c].map quoteField) = quoteField c from rfl,
        csv_cell_cr]
    | cons c' t' =>
      rw [show joinComma ((c :: c' :: t').map quoteField)
            = quoteField c ++ ',' :: joinComma ((c' :: t').map quoteField) from rfl]
      rw [List.append_assoc, List.cons_append, csv_cell_comma,
        ih (by simp) (f ++ [c]) rest]
      simp

/-- Rows the writer/parser pair round-trips record-wise: the blank separator
row, and any row whose first cell is non-empty. -/
def goodRow (row : List (List Char)) : Prop :=
  row = [] ∨ ∃ c0 cls, row = c0 :: cls ∧ c0 ≠ []

theorem csv_writeRow_parse (row : List (List Char)) (hrow : goodRow row)
    (rest : List Char) :
    csvParseGo .startRecord [] [] (writeRow row ++ rest)
      = row :: csvParseGo .startRecord [] [] rest := by
  rcases hrow with rfl | ⟨c0, cls, rfl, hc0⟩
  · rw [show writeRow [] = ['\r', '\n'] from rfl]
    rw [List.cons_append, csv_sr_cr, List.cons_append, csv_el_lf, List.nil_append]
  · unfold writeRow
    cases cls with
    | nil =>
      rw [show joinComma ([c0].map quoteField) = quoteField c0 from rfl]
      rw [show (quoteField c0 ++ ['\r', '\n']) ++ rest
            = quoteField c0 ++ '\r' :: '\n' :: rest from by simp]
      rw [csv_cell_cr_start c0 hc0, csv_el_lf]
    | cons c1 t =>
      rw [show joinComma ((c0 :: c1 :: t).map quoteField)
            = quoteField c0 ++ ',' :: joinComma ((c1 :: t).map quoteField) from rfl]
      rw [show ((quoteField c0 ++ ',' :: joinComma ((c1 :: t).map quoteField))
              ++ ['\r', '\n']) ++ rest
            = quoteField c0 ++ ',' ::
                (joinComma ((c1 :: t).map quoteField) ++ '\r' :: '\n' :: rest) from by
        simp]
      rw [csv_cell_comma_start, csv_fields_loop (c1 :: t) (by simp) [c0] ('\n' :: rest),
        csv_el_lf]
      simp

theorem csvParse_writeRows (rows : List (List (List Char)))
    (h : ∀ row ∈ rows, goodRow row) :
    csvParse ((rows.map writeRow).flatten) = rows := by
  unfold csvParse
  induction rows with
  | nil =>
    rw [show (([] : List (List (List Char))).map writeRow).flatten = [] from rfl]
    conv_lhs => rw [csvParseGo.eq_def]
    dsimp only
    rw [if_pos (Or.inl rfl)]
  | cons row rest ih =>
    rw [List.map_cons, List.flatten_cons, csv_writeRow_parse row (h row (by simp)),
      ih (fun r hr => h r (by simp [hr]))]

/-! ### CSV layer, part 3: `to_csv_string` / `from_csv_string` -/

/-- `RollLedger.CSV_HEADER_ROLLS`. -/
def CSV_HEADER_ROLLS : List (List Char) :=
  ["roll_number".toList, "contract_symbol".toList, "entry_date".toList,
   "entry_price".toList, "exit_date".toList, "exit_price".toList,
   "quantity".toList, "direction".toList, "notes".toList]

/-- The cells of one period row as written by `to_csv_string` (numbers via
`str`, `exit_date` by truthiness, `exit_price` by an `is not None` test). -/
def rollRowCells (r : RollEntry) : List (List Char) :=
  [intToChars r.roll_number,
   r.contract_symbol,
   r.entry_date,
   ratToChars r.entry_price,
   RollLedger.pyStrOr r.exit_date [],
   (match r.exit_price with | some p => ratToChars p | none => []),
   intToChars r.quantity,
   r.direction,
   r.notes]

/-- `RollLedger.to_csv_string`: the meta header row, the meta data row, a
blank separator, the period header row, then one row per period. -/
def RollLedger.to_csv_string (L : RollLedger) : List Char :=
  writeRow ["#meta".toList, "instrument".toList, "contract_multiplier".toList] ++
  writeRow ["#meta".toList, L.instrument, ratToChars L.contract_multiplier] ++
  writeRow [] ++
  writeRow CSV_HEADER_ROLLS ++
  (L.rolls.map (fun r => writeRow (rollRowCells r))).flatten

/-- The meta-scanning loop of `from_csv_string`: skips blank rows, records
instrument/multiplier from any `#meta` row of more than 2 cells whose third
cell parses as a number, and stops after the first row whose first cell is
`roll_number`, handing back the remaining rows; `none` means no header row
was found, so `data_start` stays 0 and every row is scanned for periods. -/
def scanMeta : List Char → ℚ → List (List (List Char)) →
    List Char × ℚ × Option (List (List (List Char)))
  | instr, mult, [] => (instr, mult, none)
  | instr, mult, row :: rest =>
    if row = [] then scanMeta instr mult rest
    else if row.headD [] = "#meta".toList ∧ row.length > 2 then
      match charsToRat? (row.getD 2 []) with
      | some m => scanMeta (row.getD 1 []) m rest
      | none => scanMeta instr mult rest
    else if row.headD [] = "roll_number".toList then (instr, mult, some rest)
    else scanMeta instr mult rest

/-- `float(row[5]) if row[5] else None` with the raised `ValueError`. -/
def parseExitPrice (cell : List Char) : Except String (Option ℚ) :=
  if cell = [] then .ok none
  else
    match charsToRat? cell with
    | some xp => .ok (some xp)
    | none => .error "ValueError: could not convert string to float"

/-- `int(row[6]) if len(row) > 6 and row[6] else 1` with the raised
`ValueError`. -/
def parseQuantity (row : List (List Char)) : Except String Int :=
  if row.length > 6 ∧ row.getD 6 [] ≠ [] then
    match charsToInt? (row.getD 6 []) with
    | some q => .ok q
    | none => .error "ValueError: invalid literal for int()"
  else .ok 1

/-- Parse one period row of `from_csv_string`: `.ok none` models the
`continue` that silently skips blank and short rows; `.error` a
`ValueError` raised by `int()`/`float()` (in the evaluation order of the
`RollEntry(...)` constructor arguments). -/
def parseRollRow (row : List (List Char)) : Except String (Option RollEntry) :=
  if row = [] ∨ row.length < 6 then .ok none
  else
    match charsToInt? (row.getD 0 []) with
    | none => .error "ValueError: invalid literal for int()"
    | some rn =>
      match charsToRat? (row.getD 3 []) with
      | none => .error "ValueError: could not convert string to float"
      | some ep =>
        match parseExitPrice (row.getD 5 []) with
        | .error e => .error e
        | .ok xp =>
          match parseQuantity row with
          | .error e => .error e
          | .ok qty =>
            .ok (some
              ⟨rn, row.getD 1 [], row.getD 2 [], ep,
               (if row.getD 4 [] = [] then none else some (row.getD 4 [])),
               xp, qty,
               (if row.length > 7 ∧ row.getD 7 [] ≠ [] then row.getD 7 [] else strLONG),
               (if row.length > 8 then row.getD 8 [] else [])⟩)

/-- The row loop of `from_csv_string`; a raised `ValueError` aborts the
whole deserialization. -/
def parseRolls : List (List (List Char)) → Except String (List RollEntry)
  | [] => .ok []
  | row :: rest =>
    match parseRollRow row with
    | .error e => .error e
    | .ok none => parseRolls rest
    | .ok (some ent) =>
      match parseRolls rest with
      | .error e => .error e
      | .ok tl => .ok (ent :: tl)

/-- `RollLedger.from_csv_string`. -/
def RollLedger.from_csv_string (text : List Char) : Except String RollLedger :=
  let rows := csvParse text
  let m := scanMeta [] 1 rows
  let dataRows := match m.2.2 with | some rs => rs | none => rows
  match parseRolls dataRows with
  | .error e => .error e
  | .ok rl => .ok ⟨m.1, m.2.1, rl⟩

/-! Reconstruction of one written period row. -/

theorem parseRollRow_rollRowCells (r : RollEntry) (hdir : r.direction ≠ [])
    (hxd : r.exit_date ≠ some []) :
    parseRollRow (rollRowCells r) = .ok (some r) := by
  obtain ⟨rn, csym, ed, ep, xd, xp, q, dir, ns⟩ := r
  simp only [rollRowCells] at *
  unfold parseRollRow
  rw [if_neg (by simp)]
  simp only [List.getD_cons_zero, List.getD_cons_succ]
  rw [charsToInt?_intToChars, charsToRat?_ratToChars]
  have hxp : parseExitPrice (match xp with | some p => ratToChars p | none => []) =
      .ok xp := by
    cases xp with
    | none => rfl
    | some p =>
      unfold parseExitPrice
      rw [if_neg (ratToChars_ne_nil p), charsToRat?_ratToChars]
  rw [hxp]
  have hq : parseQuantity (rollRowCells ⟨rn, csym, ed, ep, xd, xp, q, dir, ns⟩) =
      .ok q := by
    unfold parseQuantity
    rw [if_pos ⟨by simp [rollRowCells], by
      simp only [rollRowCells, List.getD_cons_zero, List.getD_cons_succ]
      exact intToChars_ne_nil q⟩]
    simp only [rollRowCells, List.getD_cons_zero, List.getD_cons_succ]
    rw [charsToInt?_intToChars]
  simp only [rollRowCells, List.getD_cons_zero, List.getD_cons_succ] at hq
  rw [hq]
  have hxdate : (if RollLedger.pyStrOr xd [] = [] then none
      else some (RollLedger.pyStrOr xd [])) = xd := by
    cases xd with
    | none => rfl
    | some d =>
      have hdne : d ≠ [] := by
        intro hd
        exact hxd (by rw [hd])
      simp only [RollLedger.pyStrOr]
      rw [if_neg hdne, if_neg hdne]
  rw [hxdate]
  rw [if_pos ⟨by simp, hdir⟩]
  rw [if_pos (by simp)]

theorem parseRolls_map (rolls : List RollEntry)
    (h : ∀ r ∈ rolls, r.direction ≠ [] ∧ r.exit_date ≠ some []) :
    parseRolls (rolls.map rollRowCells) = .ok rolls := by
  induction rolls with
  | nil => rfl
  | cons r t ih =>
    rw [List.map_cons]
    unfold parseRolls
    rw [parseRollRow_rollRowCells r (h r (by simp)).1 (h r (by simp)).2,
      ih (fun x hx => h x (by simp [hx]))]

theorem scanMeta_written (instr : List Char) (mult : ℚ)
    (dataRows : List (List (List Char))) :
    scanMeta [] 1
      (["#meta".toList, "instrument".toList, "contract_multiplier".toList] ::
        ["#meta".toList, instr, ratToChars mult] ::
        [] :: CSV_HEADER_ROLLS :: dataRows)
      = (instr, mult, some dataRows) := by
  rw [scanMeta.eq_def]
  dsimp only
  rw [if_neg (by simp), if_pos ⟨rfl, by simp⟩]
  rw [show (["#meta".toList, "instrument".toList,
      "contract_multiplier".toList].getD 2 []) = "contract_multiplier".toList
    from rfl]
  rw [show charsToRat? ("contract_multiplier".toList) = none from by decide]
  dsimp only
  rw [scanMeta.eq_def]
  dsimp only
  rw [if_neg (by simp), if_pos ⟨rfl, by simp⟩]
  rw [show (["#meta".toList, instr, ratToChars mult].getD 2 [])
      = ratToChars mult from rfl]
  rw [charsToRat?_ratToChars]
  dsimp only
  rw [show (["#meta".toList, instr, ratToChars mult].getD 1 []) = instr from rfl]
  rw [scanMeta.eq_def]
  dsimp only
  rw [if_pos rfl]
  rw [scanMeta.eq_def]
  dsimp only
  rw [if_neg (by simp [CSV_HEADER_ROLLS]), if_neg (by
    intro hcond
    have := hcond.1
    simp [CSV_HEADER_ROLLS] at this), if_pos (by simp [CSV_HEADER_ROLLS])]

theorem csv_roundtrip (L : RollLedger)
    (h : ∀ r ∈ L.rolls, r.direction ≠ [] ∧ r.exit_date ≠ some []) :
    RollLedger.from_csv_string (RollLedger.to_csv_string L) = .ok L := by
  have htext : RollLedger.to_csv_string L =
      ((["#meta".toList, "instrument".toList, "contract_multiplier".toList] ::
        ["#meta".toList, L.instrument, ratToChars L.contract_multiplier] ::
        [] :: CSV_HEADER_ROLLS :: L.rolls.map rollRowCells).map writeRow).flatten := by
    unfold RollLedger.to_csv_string
    simp [List.map_map, List.append_assoc, Function.comp_def]
  have hgood : ∀ row ∈ (["#meta".toList, "instrument".toList,
        "contract_multiplier".toList] ::
      ["#meta".toList, L.instrument, ratToChars L.contract_multiplier] ::
      [] :: CSV_HEADER_ROLLS :: L.rolls.map rollRowCells), goodRow row := by
    intro row hr
    simp only [List.mem_cons] at hr
    rcases hr with rfl | rfl | rfl | rfl | hmem
    · exact Or.inr ⟨_, _, rfl, by decide⟩
    · exact Or.inr ⟨_, _, rfl, by decide⟩
    · exact Or.inl rfl
    · exact Or.inr ⟨_, _, rfl, by decide⟩
    · obtain ⟨r, hrm, rfl⟩ := List.mem_map.mp hmem
      exact Or.inr ⟨_, _, rfl, intToChars_ne_nil r.roll_number⟩
  unfold RollLedger.from_csv_string
  rw [htext, csvParse_writeRows _ hgood]
  dsimp only
  rw [scanMeta_written]
  dsimp only
  rw [parseRolls_map L.rolls h]

/-! ### C2: serialization round trip -/

/-- A ledger built through the operations whose `close_position` was given
the empty string as exit date. -/
def csvBadLedger : RollLedger :=
  ((RollLedger.add_initial_entry ⟨"ES".toList, 50, []⟩ "ESH25".toList
    "2025-01-15".toList 5000 1 strLONG []).2.close_position 5100 []).2

/-- C2 counterexample: for the ledger obtained by `add_initial_entry`
followed by `close_position(5100.0, "")`, deserializing the serialized text
does not reproduce the ledger: the closed period's exit date `""` is written
as an empty cell and read back as the absent value. -/
theorem c2_counterexample :
    RollLedger.from_csv_string (RollLedger.to_csv_string csvBadLedger)
      ≠ .ok csvBadLedger ∧
    csvBadLedger.rolls.map (fun r => r.exit_date) = [some []] ∧
    (match RollLedger.from_csv_string (RollLedger.to_csv_string csvBadLedger) with
     | .ok L' => L'.rolls.map (fun r => r.exit_date)
     | .error _ => []) = [none] := by decide

/-- C2 (amended): for any ledger produced by `add_initial_entry` followed by
any sequence of `roll_contract`/`close_position` calls — including ones whose
contract label or notes contain the separator, the quote character or line
breaks — in which every direction string is non-empty and no exit date is the
empty string, `from_csv_string (to_csv_string L)` reproduces the instrument,
the contract multiplier and every field of every period exactly.  (Without
the two non-emptiness conditions the law fails: an empty direction is read
back as LONG and an empty exit date as the absent value.) -/
theorem c2_csv_roundtrip_amended (L : RollLedger) (_hR : Reachable L)
    (h : ∀ r ∈ L.rolls, r.direction ≠ [] ∧ r.exit_date ≠ some []) :
    RollLedger.from_csv_string (RollLedger.to_csv_string L) = .ok L :=
  csv_roundtrip L h

/-- First step of a scenario whose label and notes exercise the quoting
rules: the label contains the separator and quote characters, the notes
contain a line break, the separator and embedded quotes. -/
def csvSpecStep0 : Except String RollEntry × RollLedger :=
  RollLedger.add_initial_entry ⟨"ES".toList, 50, []⟩ "ES,\"H\"25".toList
    "2025-01-15".toList 5000 1 strLONG "line one\r\nline,two \"quoted\"".toList

def csvSpecialLedger : RollLedger :=
  (csvSpecStep0.2.roll_contract 5050 "2025-03-14".toList "ESM25".toList 5060
    none none []).2

theorem csvSpecialLedger_reachable : Reachable csvSpecialLedger :=
  Reachable.roll csvSpecStep0.2 5050 "2025-03-14".toList "ESM25".toList 5060
    none none [] _ _
    (Reachable.add_initial ⟨"ES".toList, 50, []⟩ "ES,\"H\"25".toList
      "2025-01-15".toList 5000 1 strLONG "line one\r\nline,two \"quoted\"".toList
      csvSpecStep0.1 csvSpecStep0.2 (Reachable.start "ES".toList 50) rfl) rfl

theorem c2_witness :
    RollLedger.from_csv_string (RollLedger.to_csv_string csvSpecialLedger)
      = .ok csvSpecialLedger :=
  c2_csv_roundtrip_amended csvSpecialLedger csvSpecialLedger_reachable (by decide)

/-! ### C7: deserialization defaults and failure policy -/

/-- A serialized input whose period row has only 3 columns, missing the
required entry-price column (and more). -/
def c7ShortRowText : List Char :=
  ("roll_number,contract_symbol,entry_date,entry_price,exit_date,exit_price,quantity,direction,notes\r\n1,ESH25,2025-01-15\r\n").toList

/-- C7 counterexample: a period row missing required fields (here only 3 of
the 6 mandatory columns are present) does not cause a signaled hard failure:
`from_csv_string` succeeds and silently returns a ledger with no periods. -/
theorem c7_counterexample :
    RollLedger.from_csv_string c7ShortRowText = .ok ⟨[], 1, []⟩ := by decide

/-- C7 (amended): a period row with exactly the 6 mandatory columns is
recovered with quantity 1, direction LONG and empty notes; but a row with
fewer than 6 columns — in particular one missing required fields — is
silently skipped rather than causing a hard failure; a ≥6-column row whose
required numeric fields do not parse does raise; and an unrecognized or
absent header row is not a failure either: period scanning simply starts at
the beginning of the input. -/
theorem c7_deserialization_policy :
    (∀ (c0 c1 c2 c3 c4 c5 : List Char) (rn : Int) (ep : ℚ) (xp : Option ℚ),
      charsToInt? c0 = some rn → charsToRat? c3 = some ep →
      parseExitPrice c5 = .ok xp →
      parseRollRow [c0, c1, c2, c3, c4, c5] = .ok (some
        ⟨rn, c1, c2, ep, (if c4 = [] then none else some c4), xp, 1,
         strLONG, []⟩)) ∧
    (∀ row : List (List Char), row.length < 6 → parseRollRow row = .ok none) ∧
    (∀ row : List (List Char), ¬(row = [] ∨ row.length < 6) →
      charsToInt? (row.getD 0 []) = none →
      parseRollRow row = .error "ValueError: invalid literal for int()") ∧
    (RollLedger.from_csv_string "1,ESH25,2025-01-15,5000,,,2,SHORT,hello\r\n".toList
      = .ok ⟨[], 1, [⟨1, "ESH25".toList, "2025-01-15".toList, 5000, none, none,
          2, "SHORT".toList, "hello".toList⟩]⟩) := by
  refine ⟨?_, ?_, ?_, by decide⟩
  · intro c0 c1 c2 c3 c4 c5 rn ep xp h0 h3 h5
    unfold parseRollRow
    rw [if_neg (by simp)]
    simp only [List.getD_cons_zero, List.getD_cons_succ]
    rw [h0, h3, h5]
    have hq : parseQuantity [c0, c1, c2, c3, c4, c5] = .ok 1 := by
      unfold parseQuantity
      rw [if_neg (by simp)]
    rw [hq]
    dsimp only
    simp
  · intro row hlen
    unfold parseRollRow
    rw [if_pos (Or.inr hlen)]
  · intro row hrow h0
    unfold parseRollRow
    rw [if_neg hrow, h0]

theorem c7_witness :
    parseRollRow ["7".toList, "ESM25".toList, "2025-03-14".toList,
        ratToChars (145 / 2), "2025-06-13".toList, []]
      = .ok (some ⟨7, "ESM25".toList, "2025-03-14".toList, 145 / 2,
          (if "2025-06-13".toList = ([] : List Char) then none
           else some "2025-06-13".toList), none, 1, strLONG, []⟩) ∧
    parseRollRow ["1".toList, "ESH25".toList, "2025-01-15".toList] = .ok none ∧
    parseRollRow ["oops".toList, [], [], [], [], []]
      = .error "ValueError: invalid literal for int()" :=
  ⟨c7_deserialization_policy.1 "7".toList "ESM25".toList "2025-03-14".toList
      (ratToChars (145 / 2)) "2025-06-13".toList [] 7 (145 / 2) none
      (by decide) (by decide) (by decide),
   c7_deserialization_policy.2.1 _ (by decide),
   c7_deserialization_policy.2.2.1 ["oops".toList, [], [], [], [], []]
     (by decide) (by decide)⟩
